import Mathlib

/-!
Verification development for `mypy2cy.py`, a lexical Python-typing-to-Cython
converter.  Strings are modelled as `List Char` (`Str`).  Whitespace is
modelled as the six ASCII whitespace characters recognised by Python's
`str.strip` and the regex class `\s` on ASCII text.  Recursive functions of
the source (`map_type`, the replace loop of `str.replace`, `unwrap_literal`,
the line-scanning loop) are encoded with a structural fuel parameter plus a
proved fuel-irrelevance lemma, so that every definition evaluates by `decide`
and the fuel lemma carries the termination argument of the source.
-/

set_option maxRecDepth 4000

abbrev Str := List Char

/-- ASCII whitespace, as stripped by `str.strip()` and matched by `\s`. -/
def isSpChar (c : Char) : Bool :=
  c = ' ' || c = '\t' || c = '\n' || c = '\r' || c = '\x0b' || c = '\x0c'

/-- `str.strip()`: drop leading and trailing whitespace. -/
def pyStrip (s : Str) : Str :=
  ((s.dropWhile isSpChar).reverse.dropWhile isSpChar).reverse

/-- First character of the regex classes `[a-zA-Z_]`. -/
def isIdentStart (c : Char) : Bool := c.isAlpha || c = '_'

/-- Continuation characters of `[a-zA-Z0-9_]`. -/
def isIdentChar (c : Char) : Bool := c.isAlphanum || c = '_'

/-- The type-expression class `[a-zA-Z0-9_\[\], \.]` of the rewriter regexes. -/
def isTypeChar (c : Char) : Bool :=
  c.isAlphanum || c = '_' || c = '[' || c = ']' || c = ',' || c = ' ' || c = '.'

/-- The class `[a-zA-Z0-9_\\.]` of the bare-name regex in `map_type`. -/
def isOuterChar (c : Char) : Bool :=
  c.isAlphanum || c = '_' || c = '\\' || c = '.'

/-- Python `str.isdigit()` restricted to ASCII digits. -/
def isDigits (s : Str) : Bool := !s.isEmpty && s.all (·.isDigit)

/-- Diagnostics printed to stderr by `map_type` (lines 83, 113, 122). -/
inductive Diag where
  | mismatch (name : Str)
  | expectedParams (name : Str)
  | unrecognized (pytype : Str)
deriving DecidableEq

/-- `TYPE_MAP` of the source (lines 14-26). -/
def TYPE_MAP : List (Str × Str) :=
  [("int".toList, "int".toList), ("float".toList, "float".toList),
   ("str".toList, "str".toList), ("bool".toList, "bint".toList),
   ("bytes".toList, "bytes".toList), ("list".toList, "list".toList),
   ("tuple".toList, "tuple".toList), ("dict".toList, "dict".toList),
   ("set".toList, "set".toList), ("None".toList, "void".toList),
   ("Any".toList, "object".toList)]

/-- `CUSTOM_TYPE_MAP`: rule name ↦ (substitution template, parameter names). -/
abbrev CustomMap := List (Str × (Str × List Str))

/-- One step of `unwrap_literal`'s loop guard: starts with `Literal[` and
ends with `]`. -/
def ulCond (t : Str) : Bool :=
  "Literal[".toList.isPrefixOf t && t.getLast? == some ']'

/-- Fueled body of `unwrap_literal` (lines 72-75): repeatedly strip one
`Literal[...]` wrapper. -/
def ulFuel : Nat → Str → Str
  | 0, t => t
  | f + 1, t => if ulCond t then ulFuel f ((t.drop 8).dropLast) else t

/-- `unwrap_literal` (lines 72-75). Each loop iteration removes nine
characters, so `t.length` fuel suffices. -/
def unwrapLiteral (t : Str) : Str := ulFuel t.length t

/-- Match of `^([a-zA-Z_][a-zA-Z0-9_]*)\[(.*)\]$` (line 93) on a stripped
string: leading identifier, `[`, newline-free middle, final `]`. -/
def parseGeneric (b : Str) : Option (Str × Str) :=
  match b with
  | [] => none
  | c :: rest =>
    if isIdentStart c then
      match rest.dropWhile isIdentChar with
      | '[' :: tail =>
        match tail.getLast? with
        | some ']' =>
          if (tail.dropLast).all (· ≠ '\n') then
            some (c :: rest.takeWhile isIdentChar, tail.dropLast)
          else none
        | _ => none
      | _ => none
    else none

/-- Python `str.split(sep)` for a one-character separator: always returns
one more piece than there are separators; `"".split(',') = [""]`. -/
def pySplit (s : Str) (sep : Char) : List Str :=
  match s with
  | [] => [[]]
  | c :: rest =>
    if c = sep then [] :: pySplit rest sep
    else
      match pySplit rest sep with
      | [] => [[c]]
      | p :: ps => (c :: p) :: ps

/-- Match of `^([a-zA-Z_][a-zA-Z0-9_\\.]*)$` (line 117). -/
def matchOuter (b : Str) : Option Str :=
  match b with
  | [] => none
  | c :: rest => if isIdentStart c && rest.all isOuterChar then some b else none

/-- Lines 116-123 of `map_type`: unwrap literal wrapping, extract the leading
dotted identifier, consult `TYPE_MAP`, fall back to the identifier itself or
to `"object"`; diagnose exactly when the result is `"object"`. -/
def finalLookup (base pytype : Str) : Str × List Diag :=
  let b := unwrapLiteral base
  let result :=
    match matchOuter b with
    | some k =>
      match List.lookup k TYPE_MAP with
      | some v => v
      | none => k
    | none => "object".toList
  (result, if result = "object".toList then [Diag.unrecognized pytype] else [])

/-- Lines 110-123 of `map_type`: zero-argument custom-rule lookup on the full
normalized text, then the final bare-name lookup. -/
def bareLookup (ctm : CustomMap) (base pytype : Str) : Str × List Diag :=
  match List.lookup base ctm with
  | some (template, paramKeys) =>
    (template, if paramKeys.isEmpty then [] else [Diag.expectedParams base])
  | none => finalLookup base pytype

/-- Python substring containment, `sub in s`. -/
def containsSub (sub s : Str) : Bool :=
  match s with
  | [] => sub.isEmpty
  | c :: rest => sub.isPrefixOf (c :: rest) || containsSub sub rest

/-- Fueled scan of Python `str.replace(pat, rep)`: replace all non-overlapping
occurrences left to right. -/
def raFuel (pat rep : Str) : Nat → Str → Str
  | _, [] => []
  | 0, s => s
  | f + 1, c :: rest =>
    if pat.isPrefixOf (c :: rest) then
      rep ++ raFuel pat rep f ((c :: rest).drop pat.length)
    else c :: raFuel pat rep f rest

/-- Python `s.replace(pat, rep)` for a nonempty pattern (every pattern used by
the source is a brace-delimited placeholder, hence nonempty); each scan step
consumes at least one character, so `s.length` fuel suffices. -/
def replaceAll (s pat rep : Str) : Str :=
  if pat.isEmpty then s else raFuel pat rep s.length s

theorem length_dropWhile_le (p : Char → Bool) (l : Str) :
    (l.dropWhile p).length ≤ l.length := by
  induction l with
  | nil => simp [List.dropWhile]
  | cons c rest ih =>
    rw [List.dropWhile]
    cases p c
    · simp
    · simp; omega

theorem length_pyStrip (s : Str) : (pyStrip s).length ≤ s.length := by
  unfold pyStrip
  have h1 := length_dropWhile_le isSpChar s
  have h2 := length_dropWhile_le isSpChar (s.dropWhile isSpChar).reverse
  simp only [List.length_reverse] at *
  omega

theorem raFuel_fuel_irrel (pat rep : Str) (hp : pat ≠ []) :
    ∀ f g s, s.length ≤ f → s.length ≤ g → raFuel pat rep f s = raFuel pat rep g s := by
  intro f
  induction f with
  | zero =>
    intro g s hf _
    have hs : s = [] := List.eq_nil_of_length_eq_zero (Nat.le_zero.mp hf)
    subst hs
    cases g <;> rfl
  | succ f ih =>
    intro g s hf hg
    cases s with
    | nil => cases g <;> rfl
    | cons c rest =>
      cases g with
      | zero => simp at hg
      | succ g2 =>
        have hplen : 0 < pat.length := List.length_pos.mpr hp
        simp only [raFuel]
        by_cases h : pat.isPrefixOf (c :: rest) = true
        · simp only [h, if_true]
          have hd : ((c :: rest).drop pat.length).length = (c :: rest).length - pat.length :=
            List.length_drop pat.length (c :: rest)
          have := ih g2 ((c :: rest).drop pat.length)
            (by simp only [hd]; simp at hf ⊢; omega)
            (by simp only [hd]; simp at hg ⊢; omega)
          rw [this]
        · simp only [h, if_false, Bool.false_eq_true]
          have := ih g2 rest (by simp at hf; omega) (by simp at hg; omega)
          rw [this]

theorem replaceAll_nil (pat rep : Str) : replaceAll [] pat rep = [] := by
  unfold replaceAll
  split <;> rfl

theorem replaceAll_pos {s pat : Str} (rep : Str) (hp : pat ≠ [])
    (h : pat.isPrefixOf s = true) :
    replaceAll s pat rep = rep ++ replaceAll (s.drop pat.length) pat rep := by
  have hplen : 0 < pat.length := List.length_pos.mpr hp
  cases s with
  | nil =>
    cases pat with
    | nil => exact absurd rfl hp
    | cons a b => simp [List.isPrefixOf] at h
  | cons c rest =>
    unfold replaceAll
    have hpe : pat.isEmpty = false := by
      cases pat with
      | nil => exact absurd rfl hp
      | cons a b => rfl
    simp only [hpe, Bool.false_eq_true, if_false]
    have : raFuel pat rep (c :: rest).length (c :: rest)
        = raFuel pat rep (rest.length + 1) (c :: rest) := by rfl
    rw [this]
    simp only [raFuel, h, if_true]
    congr 1
    apply raFuel_fuel_irrel pat rep hp
    · rw [List.length_drop]; simp; omega
    · rw [List.length_drop]

theorem replaceAll_neg {c : Char} {rest pat : Str} (rep : Str) (hp : pat ≠ [])
    (h : pat.isPrefixOf (c :: rest) = false) :
    replaceAll (c :: rest) pat rep = c :: replaceAll rest pat rep := by
  unfold replaceAll
  have hpe : pat.isEmpty = false := by
    cases pat with
    | nil => exact absurd rfl hp
    | cons a b => rfl
  simp only [hpe, Bool.false_eq_true, if_false]
  have : raFuel pat rep (c :: rest).length (c :: rest)
      = raFuel pat rep (rest.length + 1) (c :: rest) := by rfl
  rw [this]
  simp only [raFuel, h, Bool.false_eq_true, if_false]

/-- Concatenation of a list of lists (used to collect diagnostics in
source order). -/
def catAll {α : Type} (ls : List (List α)) : List α := ls.foldr (· ++ ·) []

/-- Python `sep.join(pieces)`. -/
def pyJoin (sep : Str) : List Str → Str
  | [] => []
  | [l] => l
  | l :: l2 :: rest => l ++ sep ++ pyJoin sep (l2 :: rest)

/-- The placeholder text `"{" + key + "}"` substituted at line 90. -/
def placeholder (k : Str) : Str := '{' :: (k ++ ['}'])

/-- Python `dict` assignment `d[k] = v`: overwrite in place if the key is
present (keeping its position), otherwise append. -/
def upsert (m : List (Str × Str)) (kv : Str × Str) : List (Str × Str) :=
  if m.any (fun e => e.1 == kv.1) then
    m.map (fun e => if e.1 == kv.1 then (e.1, kv.2) else e)
  else m ++ [kv]

/-- The `substitutions` dict built by the zip loop of lines 85-88. -/
def buildSubs (keys vals : List Str) : List (Str × Str) :=
  (keys.zip vals).foldl upsert []

/-- The substitution loop of lines 89-90: sequential `str.replace` over the
dict entries in insertion order. -/
def substFold (subs : List (Str × Str)) (template : Str) : Str :=
  subs.foldl (fun t kv => replaceAll t (placeholder kv.1) kv.2) template

/-- Body of `try_custom_template` (lines 77-91), with the recursive
`map_type` call abstracted as `rec`. -/
def tctBody (rec : Str → Str × List Diag) (ctm : CustomMap)
    (name : Str) (args : List Str) : Option Str × List Diag :=
  match List.lookup name ctm with
  | none => (none, [])
  | some (template, paramKeys) =>
    if paramKeys.length ≠ args.length then (none, [Diag.mismatch name])
    else
      let mapped := args.map fun a => rec (unwrapLiteral (pyStrip a))
      (some (substFold (buildSubs paramKeys (mapped.map Prod.fst)) template),
       catAll (mapped.map Prod.snd))

/-- Lines 101-123 after the template attempt: the built-in containers
(`tuple` first, then the `tuple/set/list/dict`-or-`gen_allow` branch), then
the bare-name lookup on the whole normalized text. -/
def afterBody (rec : Str → Str × List Diag) (ctm : CustomMap) (ga : Bool)
    (typename : Str) (args : List Str) (base pytype : Str) : Str × List Diag :=
  if typename = "tuple".toList then
    let rs := args.map rec
    ('(' :: (pyJoin ", ".toList (rs.map Prod.fst) ++ [')']),
     catAll (rs.map Prod.snd))
  else if (typename = "tuple".toList || typename = "set".toList
        || typename = "list".toList || typename = "dict".toList) || ga then
    let r := rec (unwrapLiteral args.headI)
    (typename ++ ('[' :: (r.1 ++ [']'])), r.2)
  else bareLookup ctm base pytype

/-- Line 68: `pytype.strip().replace(" ", "")` — strip surrounding
whitespace, then delete every space character. -/
def normBase (s : Str) : Str := (pyStrip s).filter (fun c => !(c == ' '))

/-- Body of `map_type` (lines 66-123) with the recursive call abstracted:
normalize, numeric passthrough, `Name[Args]` dispatch (template, then
containers, then fall-through), else bare-name lookup. -/
def mtBody (rec : Str → Str × List Diag) (ctm : CustomMap) (ga : Bool)
    (pytype : Str) : Str × List Diag :=
  let base := normBase pytype
  if isDigits base then (base, [])
  else
    match parseGeneric base with
    | some (typename, argsStr) =>
      let args := (pySplit argsStr ',').map pyStrip
      match tctBody rec ctm typename args with
      | (some s, d1) =>
        if s.isEmpty then
          let r := afterBody rec ctm ga typename args base pytype
          (r.1, d1 ++ r.2)
        else (s, d1)
      | (none, d1) =>
        let r := afterBody rec ctm ga typename args base pytype
        (r.1, d1 ++ r.2)
    | none => bareLookup ctm base pytype

/-- Fueled `map_type`: every recursive call is on a strictly shorter string,
so input length plus one is enough fuel (proved by `mtFuel_eq_map_type`). -/
def mtFuel : Nat → CustomMap → Bool → Str → Str × List Diag
  | 0, _, _, _ => ([], [])
  | f + 1, ctm, ga, s => mtBody (mtFuel f ctm ga) ctm ga s

/-- `map_type` (lines 66-123).  The first argument is the contents of the
global `CUSTOM_TYPE_MAP`, the second the global `gen_allow` flag. -/
def map_type (ctm : CustomMap) (ga : Bool) (pytype : Str) : Str × List Diag :=
  mtFuel (pytype.length + 1) ctm ga pytype

/-- `try_custom_template` (lines 77-91), recursing through `map_type`. -/
def try_custom_template (ctm : CustomMap) (ga : Bool) (name : Str)
    (args : List Str) : Option Str × List Diag :=
  tctBody (map_type ctm ga) ctm name args

theorem lookup_mem {α : Type} {k : Str} {v : α} :
    ∀ {l : List (Str × α)}, List.lookup k l = some v → (k, v) ∈ l := by
  intro l h
  induction l with
  | nil => simp [List.lookup] at h
  | cons e rest ih =>
    obtain ⟨k1, v1⟩ := e
    rw [List.lookup] at h
    cases he : k == k1 with
    | true =>
      rw [he] at h
      simp only [Option.some.injEq] at h
      have : k = k1 := by
        have := he
        simpa using this
      subst this
      subst h
      exact List.mem_cons_self _ _
    | false =>
      rw [he] at h
      exact List.mem_cons_of_mem _ (ih h)

theorem parseGeneric_some_length {b n a : Str} (h : parseGeneric b = some (n, a)) :
    a.length + 3 ≤ b.length := by
  unfold parseGeneric at h
  cases b with
  | nil => simp at h
  | cons c rest =>
    simp only at h
    split at h
    · split at h
      next x tail heq =>
        split at h
        next hl =>
          split at h
          · simp only [Option.some.injEq, Prod.mk.injEq] at h
            obtain ⟨_, ha⟩ := h
            have hlen1 : tail.length + 1 ≤ rest.length := by
              have := length_dropWhile_le isIdentChar rest
              rw [heq] at this
              simpa using this
            have htail : tail ≠ [] := by
              intro hnil
              rw [hnil] at hl
              simp at hl
            have hpos : 0 < tail.length := List.length_pos.mpr htail
            have : a.length = tail.length - 1 := by
              rw [← ha, List.length_dropLast]
            simp only [List.length_cons]
            omega
          · simp at h
        next => simp at h
      next => simp at h
    · simp at h

theorem pySplit_ne_nil (s : Str) (sep : Char) : pySplit s sep ≠ [] := by
  cases s with
  | nil => simp [pySplit]
  | cons c rest =>
    unfold pySplit
    split
    · simp
    · split <;> simp

theorem pySplit_mem_length {sep : Char} :
    ∀ {s p : Str}, p ∈ pySplit s sep → p.length ≤ s.length := by
  intro s
  induction s with
  | nil =>
    intro p hp
    simp [pySplit] at hp
    simp [hp]
  | cons c rest ih =>
    intro p hp
    unfold pySplit at hp
    by_cases hc : c = sep
    · simp only [hc, if_true] at hp
      rcases List.mem_cons.mp hp with h | h
      · simp [h]
      · have := ih h
        simp only [List.length_cons]
        omega
    · simp only [hc, if_false] at hp
      cases hps : pySplit rest sep with
      | nil => exact absurd hps (pySplit_ne_nil rest sep)
      | cons q qs =>
        rw [hps] at hp
        rcases List.mem_cons.mp hp with h | h
        · have hq : q ∈ pySplit rest sep := by rw [hps]; exact List.mem_cons_self _ _
          have := ih hq
          subst h
          simp only [List.length_cons]
          omega
        · have hmem : p ∈ pySplit rest sep := by rw [hps]; exact List.mem_cons_of_mem _ h
          have := ih hmem
          simp only [List.length_cons]
          omega

theorem length_ulFuel : ∀ (f : Nat) (t : Str), (ulFuel f t).length ≤ t.length := by
  intro f
  induction f with
  | zero => intro t; simp [ulFuel]
  | succ f ih =>
    intro t
    unfold ulFuel
    split
    · have h1 := ih ((t.drop 8).dropLast)
      have h2 : ((t.drop 8).dropLast).length ≤ t.length := by
        rw [List.length_dropLast, List.length_drop]
        omega
      omega
    · exact Nat.le_refl _

theorem length_unwrapLiteral (t : Str) : (unwrapLiteral t).length ≤ t.length :=
  length_ulFuel t.length t

theorem tctBody_congr {rec1 rec2 : Str → Str × List Diag} {ctm : CustomMap}
    {name : Str} {args : List Str}
    (h : ∀ a ∈ args, rec1 (unwrapLiteral (pyStrip a)) = rec2 (unwrapLiteral (pyStrip a))) :
    tctBody rec1 ctm name args = tctBody rec2 ctm name args := by
  unfold tctBody
  cases List.lookup name ctm with
  | none => rfl
  | some pr =>
    obtain ⟨template, paramKeys⟩ := pr
    split
    · rfl
    · have hmap : (args.map fun a => rec1 (unwrapLiteral (pyStrip a)))
          = (args.map fun a => rec2 (unwrapLiteral (pyStrip a))) :=
        List.map_congr_left h
      simp only [hmap]

theorem afterBody_congr {rec1 rec2 : Str → Str × List Diag} {ctm : CustomMap}
    {ga : Bool} {typename : Str} {args : List Str} {base pytype : Str}
    (h1 : ∀ a ∈ args, rec1 a = rec2 a)
    (h2 : rec1 (unwrapLiteral args.headI) = rec2 (unwrapLiteral args.headI)) :
    afterBody rec1 ctm ga typename args base pytype
      = afterBody rec2 ctm ga typename args base pytype := by
  unfold afterBody
  split
  · have hmap : args.map rec1 = args.map rec2 := List.map_congr_left h1
    simp only [hmap]
  · split
    · simp only [h2]
    · rfl

theorem mtBody_congr {rec1 rec2 : Str → Str × List Diag} {ctm : CustomMap}
    {ga : Bool} {pytype : Str}
    (h : ∀ t : Str, t.length < pytype.length → rec1 t = rec2 t) :
    mtBody rec1 ctm ga pytype = mtBody rec2 ctm ga pytype := by
  unfold mtBody
  by_cases hd : isDigits (normBase pytype) = true
  · simp only [hd, if_true]
  · simp only [hd, if_false, Bool.false_eq_true]
    cases hp : parseGeneric (normBase pytype) with
    | none => rfl
    | some pr =>
      obtain ⟨typename, argsStr⟩ := pr
      have hbase : (normBase pytype).length ≤ pytype.length := by
        unfold normBase
        exact Nat.le_trans (List.length_filter_le _ _) (length_pyStrip pytype)
      have hargs : ∀ a ∈ (pySplit argsStr ',').map pyStrip, a.length < pytype.length := by
        intro a ha
        obtain ⟨p, hp2, rfl⟩ := List.mem_map.mp ha
        have l1 := pySplit_mem_length hp2
        have l2 := parseGeneric_some_length hp
        have l3 := length_pyStrip p
        omega
      have hne : ((pySplit argsStr ',').map pyStrip) ≠ [] := by
        intro hnil
        exact pySplit_ne_nil argsStr ',' (List.map_eq_nil_iff.mp hnil)
      have htct := @tctBody_congr rec1 rec2 ctm typename
        ((pySplit argsStr ',').map pyStrip)
        (fun a ha => h _ (by
          have := hargs a ha
          have := length_unwrapLiteral (pyStrip a)
          have := length_pyStrip a
          omega))
      have haft := @afterBody_congr rec1 rec2 ctm ga typename
        ((pySplit argsStr ',').map pyStrip) (normBase pytype) pytype
        (fun a ha => h a (hargs a ha))
        (h _ (by
          have hm : ((pySplit argsStr ',').map pyStrip).headI
              ∈ (pySplit argsStr ',').map pyStrip := by
            cases hx : (pySplit argsStr ',').map pyStrip with
            | nil => exact absurd hx hne
            | cons q qs => simp
          have := hargs _ hm
          have := length_unwrapLiteral ((pySplit argsStr ',').map pyStrip).headI
          omega))
      simp only [hp, htct, haft]

theorem mtFuel_eq_map_type (ctm : CustomMap) (ga : Bool) :
    ∀ (n : Nat) (s : Str), s.length = n → ∀ f, s.length < f →
      mtFuel f ctm ga s = map_type ctm ga s := by
  intro n
  induction n using Nat.strong_induction_on with
  | _ n ih =>
    intro s hs f hf
    obtain ⟨f2, rfl⟩ : ∃ f2, f = f2 + 1 := ⟨f - 1, by omega⟩
    show mtBody (mtFuel f2 ctm ga) ctm ga s = map_type ctm ga s
    have hrhs : map_type ctm ga s = mtBody (mtFuel s.length ctm ga) ctm ga s := rfl
    rw [hrhs]
    apply mtBody_congr
    intro t ht
    have h1 : mtFuel f2 ctm ga t = map_type ctm ga t :=
      ih t.length (by omega) t rfl f2 (by omega)
    have h2 : mtFuel s.length ctm ga t = map_type ctm ga t :=
      ih t.length (by omega) t rfl s.length (by omega)
    rw [h1, h2]

/-- Unfolding equation for `map_type`: its body is `mtBody` applied to
itself, i.e. the recursion of the source is well defined. -/
theorem map_type_eq (ctm : CustomMap) (ga : Bool) (s : Str) :
    map_type ctm ga s = mtBody (map_type ctm ga) ctm ga s := by
  have h : map_type ctm ga s = mtBody (mtFuel s.length ctm ga) ctm ga s := rfl
  rw [h]
  apply mtBody_congr
  intro t ht
  exact mtFuel_eq_map_type ctm ga t.length t rfl s.length ht

/-- The regex anchor `$` (no MULTILINE): matches at the end of the string or
just before one final newline. -/
def atEnd (r : Str) : Bool := r.isEmpty || r == ['\n']

/-- The five capture groups of the variable-declaration pattern
(lines 129-135). -/
structure VarGroups where
  indent : Str
  var : Str
  typ : Str
  assign : Str
  comment : Str
deriving DecidableEq

/-- The optional trailing `(?P<comment>\s*#.*)?$` of the declaration pattern:
returns the comment group if the remainder matches, `none` if the line is
rejected. -/
def vdComment (r : Str) : Option Str :=
  match r.dropWhile isSpChar with
  | '#' :: r9 =>
    let body := r9.takeWhile (· ≠ '\n')
    if atEnd (r9.dropWhile (· ≠ '\n')) then
      some (r.takeWhile isSpChar ++ ('#' :: body))
    else none
  | _ => if atEnd r then some [] else none

/-- Deterministic match of the anchored declaration pattern
`^(\s*)(?P<var>[a-zA-Z_][a-zA-Z0-9_]*)\s*:\s*(?P<type>[a-zA-Z_][a-zA-Z0-9_\[\], \.]*)`
`(?P<assign>\s*=\s*[^#\n]*)?(?P<comment>\s*#.*)?$` (lines 129-135): all
quantifiers resolve by maximal munch because the adjacent character classes
are disjoint, and the optional groups are committed by their first
non-whitespace character (`=`, `#`). -/
def parseVarDecl (line : Str) : Option VarGroups :=
  match line.dropWhile isSpChar with
  | [] => none
  | c :: r1 =>
    if isIdentStart c then
      let var := c :: r1.takeWhile isIdentChar
      match (r1.dropWhile isIdentChar).dropWhile isSpChar with
      | ':' :: r3 =>
        match r3.dropWhile isSpChar with
        | [] => none
        | d :: r4 =>
          if isIdentStart d then
            let typ := d :: r4.takeWhile isTypeChar
            let r5 := r4.dropWhile isTypeChar
            let aws := r5.takeWhile isSpChar
            match r5.dropWhile isSpChar with
            | '=' :: r7 =>
              let t1 := r7.takeWhile isSpChar
              let mid := r7.dropWhile isSpChar
              let t2 := mid.takeWhile (fun ch => ch ≠ '#' && ch ≠ '\n')
              let r8 := mid.dropWhile (fun ch => ch ≠ '#' && ch ≠ '\n')
              match vdComment r8 with
              | some comment =>
                some ⟨line.takeWhile isSpChar, var, typ,
                      aws ++ ('=' :: (t1 ++ t2)), comment⟩
              | none => none
            | _ =>
              match vdComment r5 with
              | some comment =>
                some ⟨line.takeWhile isSpChar, var, typ, [], comment⟩
              | none => none
          else none
      | _ => none
    else none

/-- `convert_variable_declaration` (lines 128-146): on a match emit
`indent + "cdef " + mapped-type + " " + name + " " + assign + comment`
(the f-string of line 146 inserts a space after the name even when the
assign group is empty); on no match return the line unchanged. -/
def convert_variable_declaration (ctm : CustomMap) (ga : Bool) (line : Str) :
    Str × List Diag :=
  match parseVarDecl line with
  | none => (line, [])
  | some g =>
    let m := map_type ctm ga g.typ
    (g.indent ++ "cdef ".toList ++ m.1
       ++ (' ' :: (g.var ++ (' ' :: (g.assign ++ g.comment)))), m.2)

/-- The three groups of the function-header pattern (lines 149-151). -/
structure FuncGroups where
  indent : Str
  fname : Str
  params : Str
  ret : Option Str
deriving DecidableEq

/-- The tail `\)\s*(->\s*([a-zA-Z_][a-zA-Z0-9_\[\], \.]*))?\s*:$` after a
candidate closing parenthesis: optional arrow with return type, then the
header terminator. -/
def funcTail (t : Str) : Option (Option Str) :=
  match t.dropWhile isSpChar with
  | '-' :: '>' :: t2 =>
    (match t2.dropWhile isSpChar with
     | c :: r =>
       if isIdentStart c then
         let ty := c :: r.takeWhile isTypeChar
         match (r.dropWhile isTypeChar).dropWhile isSpChar with
         | ':' :: t5 => if atEnd t5 then some (some ty) else none
         | _ => none
       else none
     | [] => none)
  | ':' :: t5 => if atEnd t5 then some none else none
  | _ => none

/-- Lazy `\((.*?)\)` of the header pattern: try each closing parenthesis from
the left, shortest parameter text first, accepting the first one whose tail
matches; `.` cannot cross a newline. -/
def scanParams (acc : Str) : Str → Option (Str × Option Str)
  | [] => none
  | ')' :: tail =>
    (match funcTail tail with
     | some ret => some (acc.reverse, ret)
     | none => scanParams (')' :: acc) tail)
  | '\n' :: _ => none
  | c :: tail => scanParams (c :: acc) tail

/-- Deterministic match of the anchored header pattern
`^(\s*)def\s+([a-zA-Z_][a-zA-Z0-9_]*)\s*\((.*?)\)\s*(->\s*(type))?\s*:$`
(lines 149-151). -/
def parseFuncDef (s : Str) : Option FuncGroups :=
  match s.dropWhile isSpChar with
  | 'd' :: 'e' :: 'f' :: w :: r1 =>
    if isSpChar w then
      match r1.dropWhile isSpChar with
      | c :: r2 =>
        if isIdentStart c then
          let fname := c :: r2.takeWhile isIdentChar
          match (r2.dropWhile isIdentChar).dropWhile isSpChar with
          | '(' :: r3 =>
            (match scanParams [] r3 with
             | some (ps, ret) => some ⟨s.takeWhile isSpChar, fname, ps, ret⟩
             | none => none)
          | _ => none
        else none
      | [] => none
    else none
  | _ => none

/-- One parameter of the header rewrite (lines 160-172): strip, skip empties,
split typed parameters at the first `:`, pass `self` and untyped parameters
through, map the annotated type. -/
def cfdParam (ctm : CustomMap) (ga : Bool) (piece : Str) :
    Option (Str × List Diag) :=
  let p := pyStrip piece
  if p.isEmpty then none
  else if p.contains ':' then
    let pname := pyStrip (p.takeWhile (· ≠ ':'))
    let ptype := pyStrip ((p.dropWhile (· ≠ ':')).tail)
    if pname = "self".toList then some ("self".toList, [])
    else
      let m := map_type ctm ga ptype
      some (m.1 ++ (' ' :: pname), m.2)
  else some (p, [])

/-- `convert_function_definition` (lines 148-174): on a match emit
`indent + "cpdef " + return-type + " " + name + "(" + params + "):"` with a
missing return type defaulting to `"void"`; on no match return the merged
text unchanged. -/
def convert_function_definition (ctm : CustomMap) (ga : Bool) (merged : Str) :
    Str × List Diag :=
  match parseFuncDef merged with
  | none => (merged, [])
  | some g =>
    let rt := match g.ret with
      | some r => map_type ctm ga r
      | none => ("void".toList, [])
    let outs := (pySplit g.params ',').filterMap (cfdParam ctm ga)
    (g.indent ++ "cpdef ".toList ++ rt.1
       ++ (' ' :: (g.fname ++ ('(' :: (pyJoin ", ".toList (outs.map Prod.fst)
            ++ "):".toList)))),
     rt.2 ++ catAll (outs.map Prod.snd))

/-- The dispatch regex `^\s*[a-zA-Z_][a-zA-Z0-9_]*\s*:` of line 230
(a prefix match). -/
def varHead (line : Str) : Bool :=
  match line.dropWhile isSpChar with
  | c :: rest =>
    isIdentStart c &&
      (match (rest.dropWhile isIdentChar).dropWhile isSpChar with
       | ':' :: _ => true
       | _ => false)
  | [] => false

/-- `line.strip().endswith(":")` of line 221. -/
def endsColon (l : Str) : Bool := (pyStrip l).getLast? == some ':'

/-- The header-collection loop of lines 220-224: consume lines until one ends
with `:` (stripped) or the buffer runs out. -/
def takeFuncBlock (l : Str) (rest : List Str) : List Str × List Str :=
  if endsColon l then ([l], rest)
  else
    match rest with
    | [] => ([l], [])
    | l2 :: rest2 =>
      let r := takeFuncBlock l2 rest2
      (l :: r.1, r.2)

/-- Characters treated as line boundaries by Python `str.splitlines`. -/
def isBreakChar (c : Char) : Bool :=
  c = '\n' || c = '\r' || c = '\x0b' || c = '\x0c' || c = '\x1c' || c = '\x1d'
    || c = '\x1e' || c = '\x85' || c = '\u2028' || c = '\u2029'

/-- Worker for `str.splitlines` on a nonempty string: `\r\n` counts as one
boundary, a terminal boundary does not open a new line. -/
def slGo : Str → List Str
  | [] => [[]]
  | '\r' :: '\n' :: rest => [] :: (if rest.isEmpty then [] else slGo rest)
  | c :: rest =>
    if isBreakChar c then [] :: (if rest.isEmpty then [] else slGo rest)
    else
      match slGo rest with
      | [] => [[c]]
      | p :: ps => (c :: p) :: ps

/-- Python `source.splitlines()` (line 183). -/
def splitLines (s : Str) : List Str := if s.isEmpty then [] else slGo s

/-- `file_level_enabled` (lines 176-180): `"use-cython"` contained in one of
the first three lines. -/
def file_level_enabled (lines : List Str) : Bool :=
  (lines.take 3).any (fun l => containsSub "use-cython".toList l)

/-- Body of one iteration of the scanning loop (lines 190-234), with the
processing of the remaining buffer abstracted as `rec` (taking the updated
`in_block` and `next_line_compiled` state). -/
def clBody (rec : Bool → Bool → List Str → List Str × List Diag)
    (ctm : CustomMap) (ga : Bool) (fw : Bool) (inb nlc : Bool)
    (l : Str) (rest : List Str) : List Str × List Diag :=
  let stripped := pyStrip l
  if stripped = "@compile".toList then
    let r := rec inb true rest
    (l :: r.1, r.2)
  else if "#".toList.isPrefixOf stripped
      && containsSub "cython-begin".toList stripped then
    let r := rec true nlc rest
    (l :: r.1, r.2)
  else if "#".toList.isPrefixOf stripped
      && containsSub "cython-end".toList stripped then
    let r := rec false nlc rest
    (l :: r.1, r.2)
  else
    let cn := fw || inb || nlc
    if "@".toList.isPrefixOf stripped then
      let r := rec inb false rest
      (l :: r.1, r.2)
    else if "def ".toList.isPrefixOf stripped && cn then
      let fb := takeFuncBlock l rest
      let o := convert_function_definition ctm ga (pyJoin [' '] fb.1)
      let r := rec inb false fb.2
      (o.1 :: r.1, o.2 ++ r.2)
    else if cn && varHead l then
      let o := convert_variable_declaration ctm ga l
      let r := rec inb false rest
      (o.1 :: r.1, o.2 ++ r.2)
    else
      let r := rec inb false rest
      (l :: r.1, r.2)

/-- Fueled scanning loop; the cursor advances by at least one line per
iteration, so the number of lines plus one is enough fuel. -/
def clFuel (ctm : CustomMap) (ga : Bool) (fw : Bool) :
    Nat → Bool → Bool → List Str → List Str × List Diag
  | 0, _, _, _ => ([], [])
  | _ + 1, _, _, [] => ([], [])
  | f + 1, inb, nlc, l :: rest => clBody (clFuel ctm ga fw f) ctm ga fw inb nlc l rest

/-- The scanning loop of `convert_typing_to_cython` (lines 190-234), started
on a line buffer with given `in_block` and `next_line_compiled` state. -/
def convert_lines (ctm : CustomMap) (ga : Bool) (fw inb nlc : Bool)
    (lines : List Str) : List Str × List Diag :=
  clFuel ctm ga fw (lines.length + 1) inb nlc lines

/-- `convert_typing_to_cython` (lines 182-236): split into lines, compute the
whole-file flag once, scan, and join the output with `"\n"`. -/
def convert_typing_to_cython (ctm : CustomMap) (ga : Bool) (source : Str)
    (forceGlobal : Bool) : Str × List Diag :=
  let lines := splitLines source
  let fw := forceGlobal || file_level_enabled lines
  let r := convert_lines ctm ga fw false false lines
  (pyJoin ['\n'] r.1, r.2)

theorem takeFuncBlock_rest_length :
    ∀ (rest : List Str) (l : Str), (takeFuncBlock l rest).2.length ≤ rest.length := by
  intro rest
  induction rest with
  | nil =>
    intro l
    unfold takeFuncBlock
    split <;> simp
  | cons l2 rest2 ih =>
    intro l
    unfold takeFuncBlock
    split
    · simp
    · have := ih l2
      simp only [List.length_cons]
      omega

theorem clBody_congr {rec1 rec2 : Bool → Bool → List Str → List Str × List Diag}
    {ctm : CustomMap} {ga fw inb nlc : Bool} {l : Str} {rest : List Str}
    (h : ∀ (i n : Bool) (ls : List Str), ls.length ≤ rest.length →
      rec1 i n ls = rec2 i n ls) :
    clBody rec1 ctm ga fw inb nlc l rest = clBody rec2 ctm ga fw inb nlc l rest := by
  simp only [clBody]
  have hrest : ∀ i n, rec1 i n rest = rec2 i n rest :=
    fun i n => h i n rest (Nat.le_refl _)
  have hfb : ∀ i n, rec1 i n (takeFuncBlock l rest).2 = rec2 i n (takeFuncBlock l rest).2 :=
    fun i n => h i n _ (takeFuncBlock_rest_length rest l)
  split
  · rw [hrest]
  · split
    · rw [hrest]
    · split
      · rw [hrest]
      · split
        · rw [hrest]
        · split
          · rw [hfb]
          · split
            · rw [hrest]
            · rw [hrest]

theorem clFuel_eq_convert_lines (ctm : CustomMap) (ga fw : Bool) :
    ∀ (n : Nat) (lines : List Str), lines.length = n → ∀ f inb nlc, lines.length < f →
      clFuel ctm ga fw f inb nlc lines = convert_lines ctm ga fw inb nlc lines := by
  intro n
  induction n using Nat.strong_induction_on with
  | _ n ih =>
    intro lines hn f inb nlc hf
    obtain ⟨f2, rfl⟩ : ∃ f2, f = f2 + 1 := ⟨f - 1, by omega⟩
    cases lines with
    | nil => cases f2 <;> rfl
    | cons l rest =>
      simp only [List.length_cons] at hn hf
      show clBody (clFuel ctm ga fw f2) ctm ga fw inb nlc l rest
          = convert_lines ctm ga fw inb nlc (l :: rest)
      have hrhs : convert_lines ctm ga fw inb nlc (l :: rest)
          = clBody (clFuel ctm ga fw (rest.length + 1)) ctm ga fw inb nlc l rest := rfl
      rw [hrhs]
      apply clBody_congr
      intro i nn ls hls
      have h1 : clFuel ctm ga fw f2 i nn ls = convert_lines ctm ga fw i nn ls :=
        ih ls.length (by omega) ls rfl f2 i nn (by omega)
      have h2 : clFuel ctm ga fw (rest.length + 1) i nn ls = convert_lines ctm ga fw i nn ls :=
        ih ls.length (by omega) ls rfl (rest.length + 1) i nn (by omega)
      rw [h1, h2]

theorem convert_lines_nil (ctm : CustomMap) (ga fw inb nlc : Bool) :
    convert_lines ctm ga fw inb nlc [] = ([], []) := rfl

/-- Unfolding equation of the scanning loop: processing `l :: rest` is one
`clBody` step whose continuation is the loop itself. -/
theorem convert_lines_eq (ctm : CustomMap) (ga fw inb nlc : Bool) (l : Str)
    (rest : List Str) :
    convert_lines ctm ga fw inb nlc (l :: rest)
      = clBody (convert_lines ctm ga fw) ctm ga fw inb nlc l rest := by
  have h : convert_lines ctm ga fw inb nlc (l :: rest)
      = clBody (clFuel ctm ga fw (rest.length + 1)) ctm ga fw inb nlc l rest := by
    simp only [convert_lines, List.length_cons]
    rfl
  rw [h]
  apply clBody_congr
  intro i nn ls hls
  exact clFuel_eq_convert_lines ctm ga fw ls.length ls rfl (rest.length + 1) i nn (by omega)

theorem getLast?_mem_self {l : Str} {c : Char} (h : l.getLast? = some c) : c ∈ l := by
  obtain ⟨hne, h2⟩ := List.mem_getLast?_eq_getLast (show c ∈ l.getLast? by rw [h]; rfl)
  rw [h2]
  exact List.getLast_mem hne

theorem isIdentStart_not_digit {c : Char} (h : isIdentStart c = true) :
    c.isDigit = false := by
  unfold isIdentStart at h
  simp only [Bool.or_eq_true] at h
  rcases h with h | h
  · simp only [Char.isAlpha, Char.isUpper, Char.isLower, Char.isDigit,
      Bool.or_eq_true, Bool.and_eq_true, decide_eq_true_eq] at h
    simp only [Char.isDigit, Bool.and_eq_false_iff, decide_eq_false_iff_not, UInt32.not_le]
    rcases h with ⟨h1, _⟩ | ⟨h1, _⟩ <;>
    · refine Or.inr ?_
      rw [UInt32.lt_def, BitVec.lt_def]
      rw [ge_iff_le, UInt32.le_def, BitVec.le_def] at h1
      revert h1
      norm_num
      omega
  · simp only [decide_eq_true_eq] at h
    subst h
    decide

theorem isIdentStart_ident {c : Char} (h : isIdentStart c = true) :
    isIdentChar c = true := by
  unfold isIdentStart at h
  unfold isIdentChar Char.isAlphanum
  simp only [Bool.or_eq_true] at *
  rcases h with h | h
  · exact Or.inl (Or.inl h)
  · exact Or.inr h

theorem isIdentChar_not_sp {c : Char} (h : isIdentChar c = true) :
    isSpChar c = false := by
  cases hsp : isSpChar c with
  | false => rfl
  | true =>
    exfalso
    unfold isSpChar at hsp
    simp only [Bool.or_eq_true, decide_eq_true_eq] at hsp
    rcases hsp with ((((h2 | h2) | h2) | h2) | h2) | h2 <;>
      (subst h2; exact absurd h (by decide))

theorem isIdentChar_outer {c : Char} (h : isIdentChar c = true) :
    isOuterChar c = true := by
  unfold isIdentChar at h
  unfold isOuterChar
  simp only [Bool.or_eq_true] at *
  rcases h with h | h
  · exact Or.inl (Or.inl (Or.inl h))
  · exact Or.inl (Or.inl (Or.inr h))

theorem pyStrip_eq_self {s : Str} (h : ∀ c ∈ s, isSpChar c = false) : pyStrip s = s := by
  unfold pyStrip
  have hd : ∀ (l : Str), (∀ c ∈ l, isSpChar c = false) → l.dropWhile isSpChar = l := by
    intro l hl
    cases l with
    | nil => rfl
    | cons c rest =>
      rw [List.dropWhile_cons_of_neg]
      simp [hl c (List.mem_cons_self c rest)]
  rw [hd s h]
  rw [hd s.reverse (fun c hc => h c (List.mem_reverse.mp hc))]
  exact List.reverse_reverse s

/-- C1: for every input string (and every registry and `gen_allow` state),
`map_type` terminates and returns a string: the fuel-indexed recursion is
independent of the fuel once it exceeds the input length, because every
recursive call is on a strictly shorter argument substring; and on inputs
with no determinable mapping — the empty string, unbalanced brackets,
nested `Literal[...]` wrappers around a non-identifier — it degrades to the
fallback token `"object"` instead of failing, while arbitrarily nested
generic arguments also terminate. -/
theorem map_type_total_and_fallback :
    (∀ (ctm : CustomMap) (ga : Bool) (s : Str) (f : Nat), s.length < f →
        mtFuel f ctm ga s = map_type ctm ga s)
    ∧ map_type [] false [] = ("object".toList, [Diag.unrecognized []])
    ∧ map_type [] false "list[int".toList
        = ("object".toList, [Diag.unrecognized "list[int".toList])
    ∧ map_type [] false "Literal[Literal[5]]".toList
        = ("object".toList, [Diag.unrecognized "Literal[Literal[5]]".toList])
    ∧ map_type [] false "tuple[dict[str], Foo]".toList
        = ("(dict[str], Foo)".toList, []) :=
  ⟨fun ctm ga s f hf => mtFuel_eq_map_type ctm ga s.length s rfl f hf,
   by decide, by decide, by decide, by decide⟩

/-- C1 witness: the fuel-irrelevance conjunct applied at the concrete input
`"x"` with fuel `9`. -/
theorem map_type_total_and_fallback_witness :
    ("x".toList.length < 9)
    ∧ mtFuel 9 [] false "x".toList = map_type [] false "x".toList :=
  ⟨by decide, map_type_total_and_fallback.1 [] false "x".toList 9 (by decide)⟩

/-- C9: the final bare-name lookup of `map_type` (lines 116-123) emits the
"Unrecognized type" diagnostic exactly when the value it is about to return
is `"object"`; in particular `map_type "Any"` (a registered primitive whose
mapping is `"object"`) triggers the diagnostic, while the unknown identifier
`"Foo"` is returned as its own text with no diagnostic. -/
theorem unrecognized_diag_iff_object :
    (∀ base pytype : Str,
        (finalLookup base pytype).1 = "object".toList
          ↔ (finalLookup base pytype).2 ≠ [])
    ∧ (∀ ga : Bool, map_type [] ga "Any".toList
        = ("object".toList, [Diag.unrecognized "Any".toList]))
    ∧ (∀ ga : Bool, map_type [] ga "Foo".toList = ("Foo".toList, [])) := by
  refine ⟨?_, ?_, ?_⟩
  · intro base pytype
    unfold finalLookup
    cases hm : matchOuter (unwrapLiteral base) with
    | none => simp
    | some k =>
      cases hl : List.lookup k TYPE_MAP with
      | some v => by_cases hv : v = "object".toList <;> simp [hv]
      | none => by_cases hk : k = "object".toList <;> simp [hk]
  · intro ga; cases ga <;> decide
  · intro ga; cases ga <;> decide

/-- C7: whenever the anchored pattern fails to match, each rewriter returns
its input text unchanged with no diagnostics: an unparseable line or merged
header is passed through by design, not an error. -/
theorem fail_open_unparseable (ctm : CustomMap) (ga : Bool) :
    (∀ line : Str, parseVarDecl line = none →
        convert_variable_declaration ctm ga line = (line, []))
    ∧ (∀ merged : Str, parseFuncDef merged = none →
        convert_function_definition ctm ga merged = (merged, [])) := by
  constructor
  · intro line h
    unfold convert_variable_declaration
    rw [h]
  · intro merged h
    unfold convert_function_definition
    rw [h]

/-- C7 witness: `"return x + 1"` matches neither pattern and both rewriters
pass it (or an unterminated header) through unchanged. -/
theorem fail_open_unparseable_witness :
    (parseVarDecl "return x + 1".toList = none)
    ∧ (parseFuncDef "def f(".toList = none)
    ∧ convert_variable_declaration [] false "return x + 1".toList
        = ("return x + 1".toList, [])
    ∧ convert_function_definition [] false "def f(".toList = ("def f(".toList, []) :=
  ⟨by decide, by decide,
   (fail_open_unparseable [] false).1 _ (by decide),
   (fail_open_unparseable [] false).2 _ (by decide)⟩

theorem unwrapLiteral_eq_self {t : Str} (h : ulCond t = false) :
    unwrapLiteral t = t := by
  unfold unwrapLiteral
  cases hl : t.length with
  | zero => rfl
  | succ n =>
    show ulFuel (n + 1) t = t
    unfold ulFuel
    rw [h]
    simp

/-- C3 counterexample: the claim asserts that an unknown plain identifier is
returned as its own text AND that a diagnostic is reported on the error
stream; at the concrete input `"Foo"` the code returns the text but emits no
diagnostic at all, refuting the second half. -/
theorem unknown_name_no_diag_cx :
    (map_type [] false "Foo".toList).1 = "Foo".toList
    ∧ (map_type [] false "Foo".toList).2 = [] := by
  constructor <;> decide

/-- C3 (amended): for every plain-identifier type name that is not a
registered Template Rule, not in the Primitive Type Map, and not the literal
`"object"`, `map_type` returns the identifier text itself unchanged and
reports no diagnostic; it is never a hard failure. -/
theorem unknown_name_passthrough (ctm : CustomMap) (ga : Bool) (c : Char)
    (rest : Str)
    (hstart : isIdentStart c = true)
    (hrest : rest.all isIdentChar = true)
    (hctm : List.lookup (c :: rest) ctm = none)
    (hmap : List.lookup (c :: rest) TYPE_MAP = none)
    (hobj : (c :: rest) ≠ "object".toList) :
    map_type ctm ga (c :: rest) = (c :: rest, []) := by
  have hall : ∀ x ∈ c :: rest, isIdentChar x = true := by
    intro x hx
    rcases List.mem_cons.mp hx with rfl | hx
    · exact isIdentStart_ident hstart
    · exact List.all_eq_true.mp hrest x hx
  have hnosp : ∀ x ∈ c :: rest, isSpChar x = false :=
    fun x hx => isIdentChar_not_sp (hall x hx)
  have hstrip : pyStrip (c :: rest) = c :: rest := pyStrip_eq_self hnosp
  have hfilter : normBase (c :: rest) = c :: rest := by
    unfold normBase
    rw [hstrip]
    apply List.filter_eq_self.mpr
    intro a ha
    have hsp := hnosp a ha
    cases hx : a == ' ' with
    | false => rfl
    | true =>
      exfalso
      have : a = ' ' := by simpa using hx
      subst this
      exact absurd hsp (by decide)
  have hdig : isDigits (c :: rest) = false := by
    unfold isDigits
    simp [isIdentStart_not_digit hstart]
  have hdw : rest.dropWhile isIdentChar = [] :=
    List.dropWhile_eq_nil_iff.mpr (fun x hx => by
      simp [List.all_eq_true.mp hrest x hx])
  have hpg : parseGeneric (c :: rest) = none := by
    unfold parseGeneric
    simp only [hstart, if_true]
    rw [hdw]
  have hul : unwrapLiteral (c :: rest) = c :: rest := by
    apply unwrapLiteral_eq_self
    unfold ulCond
    cases hpre : "Literal[".toList.isPrefixOf (c :: rest) with
    | false => rfl
    | true =>
      exfalso
      have hsub : "Literal[".toList <+: (c :: rest) :=
        List.isPrefixOf_iff_prefix.mp hpre
      have hmem : '[' ∈ (c :: rest) := hsub.subset (by decide)
      exact absurd (hall '[' hmem) (by decide)
  have hmo : matchOuter (c :: rest) = some (c :: rest) := by
    unfold matchOuter
    have hout : rest.all isOuterChar = true :=
      List.all_eq_true.mpr (fun x hx =>
        isIdentChar_outer (List.all_eq_true.mp hrest x hx))
    simp [hstart, hout]
  rw [map_type_eq]
  unfold mtBody
  simp only [hfilter, hdig, Bool.false_eq_true, if_false, hpg]
  unfold bareLookup
  rw [hctm]
  unfold finalLookup
  simp only [hul, hmo, hmap]
  rw [if_neg hobj]

/-- C3 witness: the amended theorem applied at the unknown identifier
`"Foo"` with the empty registry. -/
theorem unknown_name_passthrough_witness :
    (isIdentStart 'F' = true)
    ∧ ("oo".toList.all isIdentChar = true)
    ∧ (List.lookup ('F' :: "oo".toList) ([] : CustomMap) = none)
    ∧ (List.lookup ('F' :: "oo".toList) TYPE_MAP = none)
    ∧ ('F' :: "oo".toList ≠ "object".toList)
    ∧ map_type [] false ('F' :: "oo".toList) = ('F' :: "oo".toList, []) :=
  ⟨by decide, by decide, by decide, by decide, by decide,
   unknown_name_passthrough [] false 'F' "oo".toList
     (by decide) (by decide) (by decide) (by decide) (by decide)⟩

/-- C8 counterexample: the claim gives the output as exactly
`indent + "cdef" + " " + map(type) + " " + name + initializer + comment`;
at the concrete matched line `"x: int"` (all optional groups empty) the code
emits `"cdef int x "` — one extra space after the name — so the claimed
concatenation is not the output. -/
theorem var_decl_formula_cx :
    (convert_variable_declaration [] false "x: int".toList).1
      ≠ [] ++ "cdef".toList ++ " ".toList ++ (map_type [] false "int".toList).1
          ++ " ".toList ++ "x".toList ++ [] ++ [] := by
  decide

/-- C8 (amended): for every line matched by the variable-annotation pattern,
the output is exactly
`indent + "cdef" + " " + map(type) + " " + name + " " + initializer + comment`
— the f-string of line 146 always inserts a single space after the name —
with the initializer and comment the (possibly empty) matched groups and no
other characters inserted or dropped. -/
theorem var_decl_output (ctm : CustomMap) (ga : Bool) (line : Str)
    (g : VarGroups) (h : parseVarDecl line = some g) :
    convert_variable_declaration ctm ga line
      = (g.indent ++ "cdef".toList ++ " ".toList ++ (map_type ctm ga g.typ).1
          ++ " ".toList ++ g.var ++ " ".toList ++ g.assign ++ g.comment,
         (map_type ctm ga g.typ).2) := by
  unfold convert_variable_declaration
  rw [h]
  simp [List.append_assoc]

/-- C8 witness: the amended formula applied at the matched line
`"  y: bool = 1 # c"` (indent, initializer and comment all nonempty). -/
theorem var_decl_output_witness :
    (parseVarDecl "  y: bool = 1 # c".toList
      = some ⟨"  ".toList, "y".toList, "bool ".toList, "= 1 ".toList, "# c".toList⟩)
    ∧ convert_variable_declaration [] false "  y: bool = 1 # c".toList
      = ("  ".toList ++ "cdef".toList ++ " ".toList
          ++ (map_type [] false "bool ".toList).1 ++ " ".toList ++ "y".toList
          ++ " ".toList ++ "= 1 ".toList ++ "# c".toList,
         (map_type [] false "bool ".toList).2) :=
  ⟨by decide,
   var_decl_output [] false "  y: bool = 1 # c".toList
     ⟨"  ".toList, "y".toList, "bool ".toList, "= 1 ".toList, "# c".toList⟩
     (by decide)⟩

/-- A line is one of the three marker lines the scanner handles before
computing the conversion mode (lines 194-209). -/
def isMarkerLine (l : Str) : Prop :=
  pyStrip l = "@compile".toList
  ∨ ("#".toList.isPrefixOf (pyStrip l) = true
      ∧ containsSub "cython-begin".toList (pyStrip l) = true)
  ∨ ("#".toList.isPrefixOf (pyStrip l) = true
      ∧ containsSub "cython-end".toList (pyStrip l) = true)

theorem convert_lines_no_marker (ctm : CustomMap) (ga : Bool) :
    ∀ lines : List Str, (∀ l ∈ lines, ¬ isMarkerLine l) →
      convert_lines ctm ga false false false lines = (lines, []) := by
  intro lines
  induction lines with
  | nil => intro _; rfl
  | cons l rest ih =>
    intro h
    have hl := h l (List.mem_cons_self l rest)
    have h1 : ¬ pyStrip l = "@compile".toList := fun hc => hl (Or.inl hc)
    have h2 : ("#".toList.isPrefixOf (pyStrip l)
        && containsSub "cython-begin".toList (pyStrip l)) = false := by
      cases hx : ("#".toList.isPrefixOf (pyStrip l)
          && containsSub "cython-begin".toList (pyStrip l)) with
      | false => rfl
      | true =>
        exact absurd (Or.inr (Or.inl (Bool.and_eq_true_iff.mp hx))) hl
    have h3 : ("#".toList.isPrefixOf (pyStrip l)
        && containsSub "cython-end".toList (pyStrip l)) = false := by
      cases hx : ("#".toList.isPrefixOf (pyStrip l)
          && containsSub "cython-end".toList (pyStrip l)) with
      | false => rfl
      | true =>
        exact absurd (Or.inr (Or.inr (Bool.and_eq_true_iff.mp hx))) hl
    have hrest := ih (fun l2 hl2 => h l2 (List.mem_cons_of_mem l hl2))
    rw [convert_lines_eq]
    simp only [clBody, if_neg h1, h2, h3, Bool.false_eq_true, if_false,
      Bool.or_false, Bool.or_self]
    by_cases h4 : "@".toList.isPrefixOf (pyStrip l) = true
    · simp only [h4, if_true, hrest]
    · simp only [h4, Bool.false_eq_true, if_false, Bool.and_false,
        Bool.false_and, Bool.and_self, hrest]

/-- C6: for every source with no whole-file marker in its first three lines,
no region markers, and no one-shot marker, with the external force flag
false, the conversion emits every line unchanged with no diagnostics: the
output is exactly the split lines rejoined, nothing is rewritten or merged. -/
theorem no_marker_converts_nothing (ctm : CustomMap) (ga : Bool) (source : Str)
    (hfl : file_level_enabled (splitLines source) = false)
    (hmk : ∀ l ∈ splitLines source, ¬ isMarkerLine l) :
    convert_typing_to_cython ctm ga source false
      = (pyJoin ['\n'] (splitLines source), []) := by
  unfold convert_typing_to_cython
  simp only [hfl, Bool.or_false, Bool.false_or]
  rw [convert_lines_no_marker ctm ga (splitLines source) hmk]

/-- C6 witness: a two-line source with a declaration and a header but no
markers round-trips unchanged. -/
theorem no_marker_converts_nothing_witness :
    (file_level_enabled (splitLines "x: int\ndef f(y: str) -> int:".toList) = false)
    ∧ (∀ l ∈ splitLines "x: int\ndef f(y: str) -> int:".toList, ¬ isMarkerLine l)
    ∧ convert_typing_to_cython [] false "x: int\ndef f(y: str) -> int:".toList false
      = (pyJoin ['\n'] (splitLines "x: int\ndef f(y: str) -> int:".toList), []) :=
  ⟨by decide,
   by
    intro l hl
    unfold isMarkerLine
    fin_cases hl
    · decide
    · decide,
   no_marker_converts_nothing [] false "x: int\ndef f(y: str) -> int:".toList
     (by decide)
     (by
      intro l hl
      unfold isMarkerLine
      fin_cases hl
      · decide
      · decide)⟩

/-- C5 counterexample: the claim says the one-shot marker converts exactly
the next physical line and no others, the flag being consumed when the next
line's conversion mode is computed.  In the concrete source
`"@compile\n# cython-end\nx: int"` the next physical line is the region-end
marker, which is handled before the flag is read: the flag survives it and
the THIRD line is converted, so the marker's effect is not confined to the
next physical line. -/
theorem compile_marker_flag_leak_cx :
    (convert_typing_to_cython [] false "@compile\n# cython-end\nx: int".toList
        false).1
      = "@compile\n# cython-end\ncdef int x ".toList := by
  decide

/-- C5 (amended): the one-shot marker's flag is consumed when the following
line's conversion mode is computed, provided that line is not itself one of
the marker lines (another `@compile`, or a region begin/end comment), which
are handled before the flag is read and leave it set.  For every non-marker
following line — convertible or not — exactly one output line is emitted for
it (converted if it matches the declaration shape, passed through otherwise,
decorator lines always passed through) and the rest of the buffer is
processed with the flag cleared. -/
theorem compile_marker_consumed (ctm : CustomMap) (ga : Bool) (fw inb : Bool)
    (l : Str) (rest : List Str)
    (h0 : ¬ isMarkerLine l)
    (h4 : "def ".toList.isPrefixOf (pyStrip l) = false) :
    convert_lines ctm ga fw inb true (l :: rest)
      = ((if "@".toList.isPrefixOf (pyStrip l) = true then (l, ([] : List Diag))
          else if varHead l = true then convert_variable_declaration ctm ga l
          else (l, [])).1
           :: (convert_lines ctm ga fw inb false rest).1,
         (if "@".toList.isPrefixOf (pyStrip l) = true then (l, ([] : List Diag))
          else if varHead l = true then convert_variable_declaration ctm ga l
          else (l, [])).2
           ++ (convert_lines ctm ga fw inb false rest).2) := by
  have h1 : ¬ pyStrip l = "@compile".toList := fun hc => h0 (Or.inl hc)
  have h2 : ("#".toList.isPrefixOf (pyStrip l)
      && containsSub "cython-begin".toList (pyStrip l)) = false := by
    cases hx : ("#".toList.isPrefixOf (pyStrip l)
        && containsSub "cython-begin".toList (pyStrip l)) with
    | false => rfl
    | true => exact absurd (Or.inr (Or.inl (Bool.and_eq_true_iff.mp hx))) h0
  have h3 : ("#".toList.isPrefixOf (pyStrip l)
      && containsSub "cython-end".toList (pyStrip l)) = false := by
    cases hx : ("#".toList.isPrefixOf (pyStrip l)
        && containsSub "cython-end".toList (pyStrip l)) with
    | false => rfl
    | true => exact absurd (Or.inr (Or.inr (Bool.and_eq_true_iff.mp hx))) h0
  rw [convert_lines_eq]
  simp only [clBody, if_neg h1, h2, h3, Bool.false_eq_true, if_false,
    Bool.or_true, h4, Bool.false_and, Bool.true_and]
  by_cases h5 : "@".toList.isPrefixOf (pyStrip l) = true
  · simp only [h5, if_true]
    simp
  · simp only [h5, Bool.false_eq_true, if_false]
    by_cases h6 : varHead l = true
    · simp only [h6, if_true]
    · simp only [h6, Bool.false_eq_true, if_false]
      simp

/-- C5 witness: the amended theorem applied with the convertible line
`"y: bool"` following the marker, and with a non-convertible line `"pass"`:
one converted (resp. passed-through) output line each, flag cleared for the
rest. -/
theorem compile_marker_consumed_witness :
    (¬ isMarkerLine "y: bool".toList)
    ∧ ("def ".toList.isPrefixOf (pyStrip "y: bool".toList) = false)
    ∧ convert_lines [] false false false true ["y: bool".toList]
      = ((if "@".toList.isPrefixOf (pyStrip "y: bool".toList) = true
            then ("y: bool".toList, ([] : List Diag))
          else if varHead "y: bool".toList = true
            then convert_variable_declaration [] false "y: bool".toList
          else ("y: bool".toList, [])).1
           :: (convert_lines [] false false false false []).1,
         (if "@".toList.isPrefixOf (pyStrip "y: bool".toList) = true
            then ("y: bool".toList, ([] : List Diag))
          else if varHead "y: bool".toList = true
            then convert_variable_declaration [] false "y: bool".toList
          else ("y: bool".toList, [])).2
           ++ (convert_lines [] false false false false []).2) :=
  ⟨by
    unfold isMarkerLine
    decide,
   by decide,
   compile_marker_consumed [] false false false "y: bool".toList []
     (by
      unfold isMarkerLine
      decide)
     (by decide)⟩

theorem takeFuncBlock_spec :
    ∀ (rest : List Str) (l : Str),
      (takeFuncBlock l rest).1 ≠ []
      ∧ (takeFuncBlock l rest).1.headI = l
      ∧ (takeFuncBlock l rest).1 ++ (takeFuncBlock l rest).2 = l :: rest
      ∧ (∀ b ∈ (takeFuncBlock l rest).1.dropLast, endsColon b = false)
      ∧ (endsColon (((takeFuncBlock l rest).1.getLast?).getD []) = true
          ∨ (takeFuncBlock l rest).2 = []) := by
  intro rest
  induction rest with
  | nil =>
    intro l
    unfold takeFuncBlock
    by_cases h : endsColon l = true
    · simp [h]
    · simp [h]
  | cons l2 rest2 ih =>
    intro l
    unfold takeFuncBlock
    by_cases h : endsColon l = true
    · simp [h]
    · simp only [h, Bool.false_eq_true, if_false]
      obtain ⟨ih1, ih2, ih3, ih4, ih5⟩ := ih l2
      refine ⟨by simp, by simp, ?_, ?_, ?_⟩
      · simp only [List.cons_append, ih3]
      · intro b hb
        rw [List.dropLast_cons_of_ne_nil ih1] at hb
        rcases List.mem_cons.mp hb with rfl | hb
        · simpa using h
        · exact ih4 b hb
      · cases hr : (takeFuncBlock l2 rest2).1 with
        | nil => exact absurd hr ih1
        | cons q qs =>
          rw [hr] at ih5
          simp only [List.getLast?_cons_cons]
          exact ih5

/-- C4: when conversion mode is on and a line begins a function definition,
the scanner consumes buffer lines via `takeFuncBlock` — whose result starts
at the current line, partitions the buffer, contains no internal line ending
with the `:` terminator, and ends either with a `:`-terminated line or the
end of the buffer — joins them with a single space, rewrites the joined text
as one header, and emits exactly one output line for the whole span before
continuing after the consumed lines; in the rewritten header a missing
return type defaults to `"void"` and every annotated non-`self` parameter's
type is mapped through the Type Mapping Engine. -/
theorem multiline_header_collapse (ctm : CustomMap) (ga : Bool)
    (fw inb nlc : Bool) (l : Str) (rest : List Str)
    (hmode : (fw || inb || nlc) = true)
    (hdef : "def ".toList.isPrefixOf (pyStrip l) = true) :
    (convert_lines ctm ga fw inb nlc (l :: rest)
      = ((convert_function_definition ctm ga
            (pyJoin [' '] (takeFuncBlock l rest).1)).1
           :: (convert_lines ctm ga fw inb false (takeFuncBlock l rest).2).1,
         (convert_function_definition ctm ga
            (pyJoin [' '] (takeFuncBlock l rest).1)).2
           ++ (convert_lines ctm ga fw inb false (takeFuncBlock l rest).2).2))
    ∧ ((takeFuncBlock l rest).1 ≠ []
      ∧ (takeFuncBlock l rest).1.headI = l
      ∧ (takeFuncBlock l rest).1 ++ (takeFuncBlock l rest).2 = l :: rest
      ∧ (∀ b ∈ (takeFuncBlock l rest).1.dropLast, endsColon b = false)
      ∧ (endsColon (((takeFuncBlock l rest).1.getLast?).getD []) = true
          ∨ (takeFuncBlock l rest).2 = []))
    ∧ (∀ (merged : Str) (g : FuncGroups), parseFuncDef merged = some g →
        g.ret = none →
        ∃ ps, (convert_function_definition ctm ga merged).1
          = g.indent ++ "cpdef ".toList ++ "void".toList ++ " ".toList
              ++ g.fname ++ ('(' :: ps))
    ∧ (∀ piece : Str, pyStrip piece ≠ [] →
        (pyStrip piece).contains ':' = true →
        pyStrip ((pyStrip piece).takeWhile (· ≠ ':')) ≠ "self".toList →
        cfdParam ctm ga piece
          = some ((map_type ctm ga
                (pyStrip (((pyStrip piece).dropWhile (· ≠ ':')).tail))).1
              ++ (' ' :: pyStrip ((pyStrip piece).takeWhile (· ≠ ':'))),
             (map_type ctm ga
                (pyStrip (((pyStrip piece).dropWhile (· ≠ ':')).tail))).2)) := by
  obtain ⟨t, ht⟩ := List.isPrefixOf_iff_prefix.mp hdef
  refine ⟨?_, takeFuncBlock_spec rest l, ?_, ?_⟩
  · have h1 : ¬ pyStrip l = "@compile".toList := by
      intro hc
      rw [← ht] at hc
      simp at hc
    have h2 : ("#".toList.isPrefixOf (pyStrip l)
        && containsSub "cython-begin".toList (pyStrip l)) = false := by
      rw [← ht]
      rfl
    have h3 : ("#".toList.isPrefixOf (pyStrip l)
        && containsSub "cython-end".toList (pyStrip l)) = false := by
      rw [← ht]
      rfl
    have h5 : "@".toList.isPrefixOf (pyStrip l) = false := by
      rw [← ht]
      rfl
    rw [convert_lines_eq]
    simp only [clBody, if_neg h1, h2, h3, Bool.false_eq_true, if_false, h5,
      hdef, hmode, Bool.and_self, if_true]
  · intro merged g hp hr
    unfold convert_function_definition
    rw [hp]
    simp only [hr]
    refine ⟨pyJoin ", ".toList
      (((pySplit g.params ',').filterMap (cfdParam ctm ga)).map Prod.fst)
        ++ "):".toList, ?_⟩
    simp [List.append_assoc]
  · intro piece hne hcol hself
    unfold cfdParam
    have hie : (pyStrip piece).isEmpty = false := by
      cases hx : pyStrip piece with
      | nil => exact absurd hx hne
      | cons a b => rfl
    simp only [hie, Bool.false_eq_true, if_false, hcol, if_true,
      if_neg hself]

/-- C4 witness: the theorem applied with whole-file mode on to a header
spanning two physical lines followed by a declaration line: the two lines
collapse to one converted header and the cursor continues at the third. -/
theorem multiline_header_collapse_witness :
    ((true || false || false) = true)
    ∧ ("def ".toList.isPrefixOf (pyStrip "def f(a: int,".toList) = true)
    ∧ convert_lines [] false true false false
        ["def f(a: int,".toList, "  b: str) -> bool:".toList, "x: int".toList]
      = ((convert_function_definition [] false
            (pyJoin [' ']
              (takeFuncBlock "def f(a: int,".toList
                ["  b: str) -> bool:".toList, "x: int".toList]).1)).1
           :: (convert_lines [] false true false false
                (takeFuncBlock "def f(a: int,".toList
                  ["  b: str) -> bool:".toList, "x: int".toList]).2).1,
         (convert_function_definition [] false
            (pyJoin [' ']
              (takeFuncBlock "def f(a: int,".toList
                ["  b: str) -> bool:".toList, "x: int".toList]).1)).2
           ++ (convert_lines [] false true false false
                (takeFuncBlock "def f(a: int,".toList
                  ["  b: str) -> bool:".toList, "x: int".toList]).2).2) :=
  ⟨by decide, by decide,
   (multiline_header_collapse [] false true false false "def f(a: int,".toList
      ["  b: str) -> bool:".toList, "x: int".toList]
      (by decide) (by decide)).1⟩

/-- Decomposition of a substitution pattern into literal text and `{param}`
placeholder segments, used to state what "substituting every placeholder
occurrence" means. -/
inductive Seg where
  | lit (s : Str)
  | ph (k : Str)
deriving DecidableEq

/-- Text of one segment. -/
def renderSeg : Seg → Str
  | .lit s => s
  | .ph k => placeholder k

/-- Text of a segment list. -/
def renderSegs (segs : List Seg) : Str := catAll (segs.map renderSeg)

/-- No brace characters. -/
def braceFree (s : Str) : Bool := s.all (fun c => c ≠ '{' && c ≠ '}')

/-- Well-formed segment: literal text and parameter names are brace-free, so
braces occur in the rendered pattern only as placeholder delimiters. -/
def segWF : Seg → Bool
  | .lit s => braceFree s
  | .ph k => braceFree k

/-- Simultaneous substitution on segments: each placeholder whose key is
bound becomes the literal bound value; everything else is unchanged. -/
def substSeg (subs : List (Str × Str)) : Seg → Seg
  | .lit s => .lit s
  | .ph k =>
    match List.lookup k subs with
    | some v => .lit v
    | none => .ph k

theorem placeholder_ne_nil (k : Str) : placeholder k ≠ [] := by
  simp [placeholder]

theorem braceFree_no_open {s : Str} (h : braceFree s = true) :
    ∀ c ∈ s, (c = '{') = False := by
  intro c hc
  have := List.all_eq_true.mp h c hc
  simp only [Bool.and_eq_true, decide_eq_true_eq] at this
  simp [this.1]

theorem replaceAll_append_braceFree (k v : Str) :
    ∀ (l s : Str), braceFree l = true →
      replaceAll (l ++ s) (placeholder k) v = l ++ replaceAll s (placeholder k) v := by
  intro l
  induction l with
  | nil => intro s _; simp
  | cons c l2 ih =>
    intro s hl
    have hc : ¬ c = '{' := by
      have := braceFree_no_open hl c (List.mem_cons_self c l2)
      simp at this
      exact this
    have hph : (placeholder k).isPrefixOf (c :: (l2 ++ s)) = false := by
      unfold placeholder
      rw [List.isPrefixOf]
      have : ('{' == c) = false := by
        cases hx : '{' == c with
        | false => rfl
        | true =>
          exfalso
          apply hc
          have h2 : '{' = c := by simpa using hx
          exact h2.symm
      rw [this]
      rfl
    have hbf : braceFree l2 = true := by
      unfold braceFree at hl ⊢
      simp only [List.all_cons, Bool.and_eq_true] at hl
      exact hl.2
    rw [List.cons_append, replaceAll_neg v (placeholder_ne_nil k) hph]
    rw [ih s hbf]
    simp

theorem replaceAll_placeholder_hit (k v s : Str) :
    replaceAll (placeholder k ++ s) (placeholder k) v
      = v ++ replaceAll s (placeholder k) v := by
  have hpre : (placeholder k).isPrefixOf (placeholder k ++ s) = true :=
    List.isPrefixOf_iff_prefix.mpr (List.prefix_append _ _)
  rw [replaceAll_pos v (placeholder_ne_nil k) hpre]
  congr 1
  rw [List.drop_left]

theorem brace_suffix_not_prefix :
    ∀ (k q s : Str), braceFree k = true → braceFree q = true → k ≠ q →
      ¬ (k ++ ['}'] <+: q ++ ('}' :: s)) := by
  intro k
  induction k with
  | nil =>
    intro q s _ hq hne hp
    cases q with
    | nil => exact hne rfl
    | cons a q2 =>
      rw [List.nil_append] at hp
      rw [List.cons_append] at hp
      have := (List.cons_prefix_cons.mp hp).1
      subst this
      have := List.all_eq_true.mp hq '}' (List.mem_cons_self _ _)
      simp at this
  | cons a k2 ih =>
    intro q s hk hq hne hp
    cases q with
    | nil =>
      rw [List.nil_append] at hp
      rw [List.cons_append] at hp
      have := (List.cons_prefix_cons.mp hp).1
      subst this
      have := List.all_eq_true.mp hk '}' (List.mem_cons_self _ _)
      simp at this
    | cons b q2 =>
      rw [List.cons_append, List.cons_append] at hp
      obtain ⟨hab, hp2⟩ := List.cons_prefix_cons.mp hp
      subst hab
      have hk2 : braceFree k2 = true := by
        unfold braceFree at hk ⊢
        simp only [List.all_cons, Bool.and_eq_true] at hk
        exact hk.2
      have hq2 : braceFree q2 = true := by
        unfold braceFree at hq ⊢
        simp only [List.all_cons, Bool.and_eq_true] at hq
        exact hq.2
      have hne2 : k2 ≠ q2 := by
        intro hc
        exact hne (by rw [hc])
      exact ih q2 s hk2 hq2 hne2 hp2

theorem not_prefix_placeholder {k q : Str} (hne : k ≠ q)
    (hk : braceFree k = true) (hq : braceFree q = true) (s : Str) :
    (placeholder k).isPrefixOf (placeholder q ++ s) = false := by
  cases hx : (placeholder k).isPrefixOf (placeholder q ++ s) with
  | false => rfl
  | true =>
    exfalso
    have hp := List.isPrefixOf_iff_prefix.mp hx
    unfold placeholder at hp
    rw [List.cons_append] at hp
    have hp2 := (List.cons_prefix_cons.mp hp).2
    have hshape : (q ++ ['}']) ++ s = q ++ ('}' :: s) := by
      simp
    rw [hshape] at hp2
    exact brace_suffix_not_prefix k q s hk hq hne hp2

theorem renderSegs_cons (sg : Seg) (segs : List Seg) :
    renderSegs (sg :: segs) = renderSeg sg ++ renderSegs segs := rfl

theorem substStep_renderSegs (k v : Str) (hk : braceFree k = true) :
    ∀ (segs : List Seg), (∀ sg ∈ segs, segWF sg = true) →
      replaceAll (renderSegs segs) (placeholder k) v
        = renderSegs (segs.map (substSeg [(k, v)])) := by
  intro segs
  induction segs with
  | nil =>
    intro _
    simp only [renderSegs, catAll, List.map_nil, List.foldr_nil]
    exact replaceAll_nil _ _
  | cons sg rest ih =>
    intro hwf
    have hwfs := hwf sg (List.mem_cons_self _ _)
    have hwfr : ∀ x ∈ rest, segWF x = true :=
      fun x hx => hwf x (List.mem_cons_of_mem _ hx)
    rw [renderSegs_cons, List.map_cons, renderSegs_cons]
    cases sg with
    | lit s =>
      simp only [renderSeg, substSeg]
      have hbf : braceFree s = true := hwfs
      rw [replaceAll_append_braceFree k v s (renderSegs rest) hbf]
      rw [ih hwfr]
    | ph q =>
      by_cases hq : q = k
      · subst hq
        rw [show renderSeg (Seg.ph q) = placeholder q from rfl]
        rw [replaceAll_placeholder_hit q v (renderSegs rest)]
        rw [ih hwfr]
        have : substSeg [(q, v)] (Seg.ph q) = Seg.lit v := by
          simp [substSeg]
        rw [this]
        rfl
      · have hqk : k ≠ q := fun hc => hq hc.symm
        have hnp := not_prefix_placeholder hqk hk hwfs (renderSegs rest)
        rw [show renderSeg (Seg.ph q) = placeholder q from rfl]
        have hsplit : placeholder q ++ renderSegs rest
            = '{' :: (q ++ ('}' :: renderSegs rest)) := by
          simp [placeholder]
        rw [hsplit]
        have hnp2 : (placeholder k).isPrefixOf
            ('{' :: (q ++ ('}' :: renderSegs rest))) = false := by
          rw [← hsplit]
          exact hnp
        rw [replaceAll_neg v (placeholder_ne_nil k) hnp2]
        rw [replaceAll_append_braceFree k v q _ hwfs]
        have hbr : (placeholder k).isPrefixOf ('}' :: renderSegs rest) = false := by
          unfold placeholder
          rw [List.isPrefixOf]
          rfl
        rw [replaceAll_neg v (placeholder_ne_nil k) hbr]
        rw [ih hwfr]
        have : substSeg [(k, v)] (Seg.ph q) = Seg.ph q := by
          have hqk2 : (q == k) = false := by
            cases hx : q == k with
            | false => rfl
            | true =>
              exfalso
              apply hq
              simpa using hx
          simp [substSeg, List.lookup, hqk2]
        rw [this]
        simp [placeholder, renderSeg]

theorem substSeg_comp (k v : Str) (rest : List (Str × Str)) (sg : Seg) :
    substSeg rest (substSeg [(k, v)] sg) = substSeg ((k, v) :: rest) sg := by
  cases sg with
  | lit s => rfl
  | ph q =>
    cases hx : q == k with
    | true =>
      have heq : q = k := by simpa using hx
      subst heq
      simp [substSeg, List.lookup]
    | false =>
      simp [substSeg, List.lookup, hx]

theorem segWF_substSeg {kv : Str × Str} (hv : braceFree kv.2 = true) (sg : Seg)
    (h : segWF sg = true) : segWF (substSeg [kv] sg) = true := by
  cases sg with
  | lit s => exact h
  | ph q =>
    show segWF (match List.lookup q [kv] with
      | some v => Seg.lit v
      | none => Seg.ph q) = true
    cases hl : List.lookup q [kv] with
    | none => exact h
    | some v2 =>
      have hm : (q, v2) = kv := List.mem_singleton.mp (lookup_mem hl)
      show braceFree v2 = true
      have : v2 = kv.2 := by rw [← hm]
      rw [this]
      exact hv

theorem substFold_renderSegs :
    ∀ (subs : List (Str × Str)) (segs : List Seg),
      (∀ sg ∈ segs, segWF sg = true) →
      (∀ kv ∈ subs, braceFree kv.1 = true ∧ braceFree kv.2 = true) →
      substFold subs (renderSegs segs) = renderSegs (segs.map (substSeg subs)) := by
  intro subs
  induction subs with
  | nil =>
    intro segs _ _
    unfold substFold
    simp only [List.foldl_nil]
    congr 1
    have : ∀ sg ∈ segs, substSeg [] sg = sg := by
      intro sg _
      cases sg with
      | lit s => rfl
      | ph q => rfl
    rw [List.map_congr_left this, List.map_id']
  | cons kv rest ih =>
    intro segs hwf hsubs
    obtain ⟨hk, hv⟩ := hsubs kv (List.mem_cons_self _ _)
    have hstep := substStep_renderSegs kv.1 kv.2 hk segs hwf
    unfold substFold at *
    simp only [List.foldl_cons]
    rw [hstep]
    have hwf2 : ∀ sg ∈ segs.map (substSeg [(kv.1, kv.2)]), segWF sg = true := by
      intro sg hsg
      obtain ⟨sg0, hsg0, rfl⟩ := List.mem_map.mp hsg
      exact segWF_substSeg hv sg0 (hwf sg0 hsg0)
    have hrest : ∀ kv2 ∈ rest, braceFree kv2.1 = true ∧ braceFree kv2.2 = true :=
      fun kv2 hkv2 => hsubs kv2 (List.mem_cons_of_mem _ hkv2)
    rw [ih (segs.map (substSeg [(kv.1, kv.2)])) hwf2 hrest]
    rw [List.map_map]
    congr 1
    apply List.map_congr_left
    intro sg _
    show substSeg rest (substSeg [(kv.1, kv.2)] sg) = substSeg (kv :: rest) sg
    rw [substSeg_comp]

theorem foldl_upsert_append :
    ∀ (keys vals : List Str) (acc : List (Str × Str)),
      keys.Nodup → (∀ e ∈ acc, e.1 ∉ keys) →
      List.foldl upsert acc (keys.zip vals) = acc ++ keys.zip vals := by
  intro keys
  induction keys with
  | nil => intro vals acc _ _; simp
  | cons k keys2 ih =>
    intro vals acc hnd hdisj
    cases vals with
    | nil => simp
    | cons v vals2 =>
      rw [List.zip_cons_cons, List.foldl_cons]
      have hany : acc.any (fun e => e.1 == k) = false := by
        cases hx : acc.any (fun e => e.1 == k) with
        | false => rfl
        | true =>
          exfalso
          obtain ⟨e, he, heq⟩ := List.any_eq_true.mp hx
          have : e.1 = k := by simpa using heq
          exact hdisj e he (this ▸ List.mem_cons_self _ _)
      have hup : upsert acc (k, v) = acc ++ [(k, v)] := by
        unfold upsert
        rw [hany]
        simp
      rw [hup]
      have hnd2 : keys2.Nodup := (List.nodup_cons.mp hnd).2
      have hknotin : k ∉ keys2 := (List.nodup_cons.mp hnd).1
      have hdisj2 : ∀ e ∈ acc ++ [(k, v)], e.1 ∉ keys2 := by
        intro e he
        rcases List.mem_append.mp he with he | he
        · intro hc
          exact hdisj e he (List.mem_cons_of_mem _ hc)
        · have : e = (k, v) := List.mem_singleton.mp he
          rw [this]
          exact hknotin
      rw [ih vals2 (acc ++ [(k, v)]) hnd2 hdisj2]
      simp [List.append_assoc]

theorem buildSubs_eq_zip (keys vals : List Str) (h : keys.Nodup) :
    buildSubs keys vals = keys.zip vals := by
  unfold buildSubs
  rw [foldl_upsert_append keys vals [] h (by simp)]
  simp

theorem parseGeneric_not_digits {b : Str} {pr : Str × Str}
    (h : parseGeneric b = some pr) : isDigits b = false := by
  cases b with
  | nil => simp [parseGeneric] at h
  | cons c rest =>
    by_cases hc : isIdentStart c = true
    · unfold isDigits
      simp [isIdentStart_not_digit hc]
    · unfold parseGeneric at h
      simp only at h
      rw [if_neg hc] at h
      simp at h

theorem tctBody_lookup_some {rec : Str → Str × List Diag} {ctm : CustomMap}
    {name : Str} {args : List Str} {pat : Str} {params : List Str}
    (h : List.lookup name ctm = some (pat, params)) :
    tctBody rec ctm name args
      = if params.length ≠ args.length then (none, [Diag.mismatch name])
        else
          (some (substFold (buildSubs params
              ((args.map fun a => rec (unwrapLiteral (pyStrip a))).map Prod.fst)) pat),
           catAll ((args.map fun a => rec (unwrapLiteral (pyStrip a))).map Prod.snd)) := by
  unfold tctBody
  rw [h]

theorem mtBody_parseGeneric_some {rec : Str → Str × List Diag}
    {ctm : CustomMap} {ga : Bool} {pytype typename argsStr : Str}
    (hd : isDigits (normBase pytype) = false)
    (hpg : parseGeneric (normBase pytype) = some (typename, argsStr)) :
    mtBody rec ctm ga pytype
      = (match tctBody rec ctm typename ((pySplit argsStr ',').map pyStrip) with
         | (some s, d1) =>
           if s.isEmpty then
             ((afterBody rec ctm ga typename ((pySplit argsStr ',').map pyStrip)
                 (normBase pytype) pytype).1,
              d1 ++ (afterBody rec ctm ga typename ((pySplit argsStr ',').map pyStrip)
                 (normBase pytype) pytype).2)
           else (s, d1)
         | (none, d1) =>
           ((afterBody rec ctm ga typename ((pySplit argsStr ',').map pyStrip)
               (normBase pytype) pytype).1,
            d1 ++ (afterBody rec ctm ga typename ((pySplit argsStr ',').map pyStrip)
               (normBase pytype) pytype).2)) := by
  unfold mtBody
  rw [if_neg (by simp [hd]), hpg]

/-- C2: for a registered Template Rule with declared parameters `params` and
pattern `pat`: (1) called with exactly as many arguments as parameters
(distinct brace-free parameter names, a pattern whose braces all delimit
placeholders, and mapped argument values free of braces — the well-formed
case), `try_custom_template` substitutes every occurrence of every declared
`{param}` placeholder simultaneously and returns the substituted pattern,
with the diagnostics of the recursively mapped arguments; (2) with a
different number of arguments it returns no substitution and exactly the
parameter-count-mismatch diagnostic, so no partial substitution can appear;
(3) `map_type` on such a mismatched `Name[args]` falls through to the next
strategy (built-in containers, then bare-name lookup, ultimately the
fallback token), its output independent of the pattern, with the mismatch
diagnostic first; (4) in the exact-arity case `map_type` returns the
(nonempty) substituted pattern itself. -/
theorem template_rule_substitution (ctm : CustomMap) (ga : Bool)
    (name pat : Str) (params : List Str) (args : List Str)
    (hlook : List.lookup name ctm = some (pat, params)) :
    ((params.length = args.length) → params.Nodup →
      (∀ p ∈ params, braceFree p = true) →
      (∀ a ∈ args, braceFree (map_type ctm ga (unwrapLiteral (pyStrip a))).1 = true) →
      ∀ segs : List Seg, pat = renderSegs segs →
      (∀ sg ∈ segs, segWF sg = true) →
      try_custom_template ctm ga name args
        = (some (renderSegs (segs.map (substSeg (params.zip
              (args.map (fun a => (map_type ctm ga (unwrapLiteral (pyStrip a))).1)))))),
           catAll (args.map (fun a => (map_type ctm ga (unwrapLiteral (pyStrip a))).2))))
    ∧ ((params.length ≠ args.length) →
      try_custom_template ctm ga name args = (none, [Diag.mismatch name]))
    ∧ (∀ pytype argsStr : Str,
      parseGeneric (normBase pytype) = some (name, argsStr) →
      args = (pySplit argsStr ',').map pyStrip →
      params.length ≠ args.length →
      map_type ctm ga pytype
        = ((afterBody (map_type ctm ga) ctm ga name args
              (normBase pytype) pytype).1,
           Diag.mismatch name :: (afterBody (map_type ctm ga) ctm ga name args
              (normBase pytype) pytype).2))
    ∧ (∀ (pytype argsStr s0 : Str) (d0 : List Diag),
      parseGeneric (normBase pytype) = some (name, argsStr) →
      args = (pySplit argsStr ',').map pyStrip →
      try_custom_template ctm ga name args = (some s0, d0) →
      s0 ≠ [] →
      map_type ctm ga pytype = (s0, d0)) := by
  refine ⟨?_, ?_, ?_, ?_⟩
  · intro hlen hnd hbp hbv segs hpat hwf
    unfold try_custom_template
    rw [tctBody_lookup_some hlook]
    rw [if_neg (by omega)]
    simp only [List.map_map]
    have hvalsub : buildSubs params
        (args.map (Prod.fst ∘ fun a => map_type ctm ga (unwrapLiteral (pyStrip a))))
        = params.zip (args.map (fun a => (map_type ctm ga (unwrapLiteral (pyStrip a))).1)) := by
      rw [buildSubs_eq_zip _ _ hnd]
      rfl
    rw [hvalsub]
    rw [hpat]
    rw [substFold_renderSegs _ segs hwf ?_]
    · rfl
    · intro kv hkv
      constructor
      · exact hbp kv.1 (List.of_mem_zip hkv).1
      · have hv2 := (List.of_mem_zip hkv).2
        obtain ⟨a, ha, hva⟩ := List.mem_map.mp hv2
        rw [← hva]
        exact hbv a ha
  · intro hlen
    unfold try_custom_template
    rw [tctBody_lookup_some hlook]
    rw [if_pos (by omega)]
  · intro pytype argsStr hpg harg hlen
    subst harg
    have htct : tctBody (map_type ctm ga) ctm name ((pySplit argsStr ',').map pyStrip)
        = (none, [Diag.mismatch name]) := by
      rw [tctBody_lookup_some hlook]
      rw [if_pos (by omega)]
    rw [map_type_eq]
    rw [mtBody_parseGeneric_some (parseGeneric_not_digits hpg) hpg]
    rw [htct]
    rfl
  · intro pytype argsStr s0 d0 hpg harg htct hs0
    subst harg
    have htct2 : tctBody (map_type ctm ga) ctm name ((pySplit argsStr ',').map pyStrip)
        = (some s0, d0) := htct
    rw [map_type_eq]
    rw [mtBody_parseGeneric_some (parseGeneric_not_digits hpg) hpg]
    rw [htct2]
    have hie : s0.isEmpty = false := by
      cases hx : s0 with
      | nil => exact absurd hx hs0
      | cons a b => rfl
    simp [hie]

/-- C2 witness: part (1) of the theorem applied to a registry holding the
rule `Wrapper ↦ ("{Type}[:]", ["Type"])` called with the single argument
`"int"`: the substituted pattern is returned. -/
theorem template_rule_substitution_witness :
    (List.lookup "Wrapper".toList
        [("Wrapper".toList, ("{Type}[:]".toList, ["Type".toList]))]
      = some ("{Type}[:]".toList, ["Type".toList]))
    ∧ (["Type".toList].length = ["int".toList].length)
    ∧ ["Type".toList].Nodup
    ∧ ("{Type}[:]".toList
        = renderSegs [Seg.ph "Type".toList, Seg.lit "[:]".toList])
    ∧ try_custom_template
        [("Wrapper".toList, ("{Type}[:]".toList, ["Type".toList]))] false
        "Wrapper".toList ["int".toList]
      = (some (renderSegs ([Seg.ph "Type".toList, Seg.lit "[:]".toList].map
            (substSeg (["Type".toList].zip (["int".toList].map (fun a =>
              (map_type [("Wrapper".toList, ("{Type}[:]".toList, ["Type".toList]))]
                false (unwrapLiteral (pyStrip a))).1)))))),
         catAll (["int".toList].map (fun a =>
            (map_type [("Wrapper".toList, ("{Type}[:]".toList, ["Type".toList]))]
              false (unwrapLiteral (pyStrip a))).2))) :=
  ⟨by decide, by decide, by decide, by decide,
   (template_rule_substitution
      [("Wrapper".toList, ("{Type}[:]".toList, ["Type".toList]))] false
      "Wrapper".toList "{Type}[:]".toList ["Type".toList] ["int".toList]
      (by decide)).1
     (by decide) (by decide) (by decide) (by decide)
     [Seg.ph "Type".toList, Seg.lit "[:]".toList] (by decide) (by decide)⟩

/-- The source text ends with a line-boundary character. -/
def endsBreak (s : Str) : Bool :=
  match s.getLast? with
  | some c => isBreakChar c
  | none => false

/-- Total length of a list of lines. -/
def sumLens (ls : List Str) : Nat := (ls.map List.length).sum

set_option maxHeartbeats 2000000 in
theorem slGo_ne_nil : ∀ s : Str, slGo s ≠ [] := by
  intro s
  induction s using slGo.induct with
  | case1 => simp [slGo]
  | case2 rest ih =>
    rw [slGo]
    split <;> simp
  | case3 c rest hne h1 ih =>
    rw [slGo.eq_3 _ _ hne, if_pos h1]
    split <;> simp
  | case4 c rest hne h1 heq ih =>
    rw [slGo.eq_3 _ _ hne, if_neg h1, heq]
    simp
  | case5 c rest hne h1 p ps heq ih =>
    rw [slGo.eq_3 _ _ hne, if_neg h1, heq]
    simp

theorem slGo_no_break :
    ∀ s : Str, ∀ l ∈ slGo s, ∀ c ∈ l, isBreakChar c = false := by
  intro s
  induction s using slGo.induct with
  | case1 =>
    intro l hl c hc
    rw [slGo] at hl
    rcases List.mem_singleton.mp hl with rfl
    simp at hc
  | case2 rest ih =>
    intro l hl c hc
    rw [slGo] at hl
    rcases List.mem_cons.mp hl with rfl | hl
    · simp at hc
    · split at hl
      · simp at hl
      · exact ih l hl c hc
  | case3 cc rest hne h1 ih =>
    intro l hl c hc
    rw [slGo.eq_3 _ _ hne, if_pos h1] at hl
    rcases List.mem_cons.mp hl with rfl | hl
    · simp at hc
    · split at hl
      · simp at hl
      · exact ih l hl c hc
  | case4 cc rest hne h1 heq ih =>
    intro l hl c hc
    rw [slGo.eq_3 _ _ hne, if_neg h1, heq] at hl
    rcases List.mem_singleton.mp hl with rfl
    rcases List.mem_singleton.mp hc with rfl
    simpa using h1
  | case5 cc rest hne h1 p ps heq ih =>
    intro l hl c hc
    rw [slGo.eq_3 _ _ hne, if_neg h1, heq] at hl
    rcases List.mem_cons.mp hl with rfl | hl
    · rcases List.mem_cons.mp hc with rfl | hc
      · simpa using h1
      · exact ih p (by rw [heq]; exact List.mem_cons_self _ _) c hc
    · exact ih l (by rw [heq]; exact List.mem_cons_of_mem _ hl) c hc

theorem slGo_ends_break_length :
    ∀ s : Str, endsBreak s = true →
      sumLens (slGo s) + (slGo s).length ≤ s.length := by
  intro s
  induction s using slGo.induct with
  | case1 =>
    intro h
    simp [endsBreak] at h
  | case2 rest ih =>
    intro h
    rw [slGo]
    cases hre : rest with
    | nil => simp [sumLens]
    | cons r0 rs =>
      have hrb : endsBreak rest = true := by
        unfold endsBreak at h ⊢
        rw [hre] at h ⊢
        rw [List.getLast?_cons_cons, List.getLast?_cons_cons] at h
        exact h
      have := ih hrb
      rw [hre] at this
      simp only [hre, List.isEmpty_cons, Bool.false_eq_true, if_false]
      simp only [sumLens, List.map_cons, List.length_nil, List.sum_cons,
        List.length_cons] at this ⊢
      omega
  | case3 c rest hne h1 ih =>
    intro h
    rw [slGo.eq_3 _ _ hne, if_pos h1]
    cases hre : rest with
    | nil => simp [sumLens]
    | cons r0 rs =>
      have hrb : endsBreak rest = true := by
        unfold endsBreak at h ⊢
        rw [hre] at h ⊢
        rw [List.getLast?_cons_cons] at h
        exact h
      have := ih hrb
      rw [hre] at this
      simp only [hre, List.isEmpty_cons, Bool.false_eq_true, if_false]
      simp only [sumLens, List.map_cons, List.length_nil, List.sum_cons,
        List.length_cons] at this ⊢
      omega
  | case4 c rest hne h1 heq ih =>
    intro _
    exact absurd heq (slGo_ne_nil rest)
  | case5 c rest hne h1 p ps heq ih =>
    intro h
    rw [slGo.eq_3 _ _ hne, if_neg h1, heq]
    cases hre : rest with
    | nil =>
      exfalso
      unfold endsBreak at h
      rw [hre] at h
      simp at h
      exact absurd h (by simpa using h1)
    | cons r0 rs =>
      have hrb : endsBreak rest = true := by
        unfold endsBreak at h ⊢
        rw [hre] at h ⊢
        rw [List.getLast?_cons_cons] at h
        exact h
      have := ih hrb
      rw [heq] at this
      simp only [sumLens, List.map_cons, List.sum_cons, List.length_cons,
        hre] at this ⊢
      omega

theorem pyJoin_length (c : Char) :
    ∀ ls : List Str, ls ≠ [] →
      (pyJoin [c] ls).length + 1 = sumLens ls + ls.length := by
  intro ls
  induction ls with
  | nil => intro h; exact absurd rfl h
  | cons l rest ih =>
    intro _
    cases rest with
    | nil => simp [pyJoin, sumLens]
    | cons l2 rest2 =>
      rw [pyJoin]
      have ihh := ih (by simp)
      rw [List.length_append, List.length_append]
      simp only [List.length_cons, List.length_nil]
      simp only [sumLens, List.map_cons, List.sum_cons, List.length_cons] at ihh ⊢
      omega

theorem pyJoin_getLast_newline :
    ∀ ls : List Str, (∀ l ∈ ls, '\n' ∉ l) →
      (pyJoin ['\n'] ls).getLast? = some '\n' → ls.getLast? = some [] := by
  intro ls
  induction ls with
  | nil =>
    intro _ h
    simp [pyJoin] at h
  | cons l rest ih =>
    intro hnl h
    cases rest with
    | nil =>
      rw [pyJoin] at h
      exact absurd (getLast?_mem_self h) (hnl l (List.mem_cons_self _ _))
    | cons l2 rest2 =>
      rw [pyJoin] at h
      have hassoc : l ++ ['\n'] ++ pyJoin ['\n'] (l2 :: rest2)
          = l ++ ('\n' :: pyJoin ['\n'] (l2 :: rest2)) := by simp
      rw [hassoc] at h
      rw [List.getLast?_append_of_ne_nil l (by simp)] at h
      cases hJ : pyJoin ['\n'] (l2 :: rest2) with
      | nil =>
        cases rest2 with
        | nil =>
          rw [pyJoin] at hJ
          subst hJ
          rfl
        | cons l3 rest3 =>
          exfalso
          rw [pyJoin] at hJ
          simp at hJ
      | cons j js =>
        rw [hJ, List.getLast?_cons_cons] at h
        have hlast : (l2 :: rest2).getLast? = some [] := by
          apply ih (fun x hx => hnl x (List.mem_cons_of_mem _ hx))
          rw [hJ]
          exact h
        rw [List.getLast?_cons_cons]
        exact hlast

/-- C10 counterexample: the claim says the output never ends with a newline
character; for the input `"a\n\n"` the split produces a trailing empty line
(`["a", ""]`), nothing is converted, and the rejoined output `"a\n"` does
end with a newline. -/
theorem trailing_newline_cx :
    (convert_typing_to_cython [] false "a\n\n".toList false).1.getLast?
      = some '\n' := by
  decide

/-- C10 (amended): the conversion splits the text into lines and joins the
output with `"\n"`: (1) the split lines contain no line-boundary characters,
so CRLF endings are replaced by LF in the joined output; (2) when nothing is
converted (no markers) and the input is nonempty and ends in a line
boundary, the output is strictly shorter than the input, so an input ending
in a newline is never returned byte-identical; (3) in the same no-conversion
setting, the output ends with a newline character only when the split
produced a trailing empty line (the input ended in two line boundaries) —
not never, as claimed. -/
theorem split_join_newline_handling :
    (∀ s : Str, ∀ l ∈ splitLines s, ∀ c ∈ l, isBreakChar c = false)
    ∧ (∀ (ctm : CustomMap) (ga : Bool) (source : Str),
        (∀ l ∈ splitLines source, ¬ isMarkerLine l) →
        file_level_enabled (splitLines source) = false →
        endsBreak source = true → source ≠ [] →
        (convert_typing_to_cython ctm ga source false).1.length < source.length)
    ∧ (∀ (ctm : CustomMap) (ga : Bool) (source : Str),
        (∀ l ∈ splitLines source, ¬ isMarkerLine l) →
        file_level_enabled (splitLines source) = false →
        (convert_typing_to_cython ctm ga source false).1.getLast? = some '\n' →
        (splitLines source).getLast? = some []) := by
  have hout : ∀ (ctm : CustomMap) (ga : Bool) (source : Str),
      (∀ l ∈ splitLines source, ¬ isMarkerLine l) →
      file_level_enabled (splitLines source) = false →
      (convert_typing_to_cython ctm ga source false).1
        = pyJoin ['\n'] (splitLines source) := by
    intro ctm ga source hmk hfl
    unfold convert_typing_to_cython
    simp only [hfl, Bool.or_false, Bool.false_or]
    rw [convert_lines_no_marker ctm ga (splitLines source) hmk]
  refine ⟨?_, ?_, ?_⟩
  · intro s l hl c hc
    unfold splitLines at hl
    split at hl
    · simp at hl
    · exact slGo_no_break s l hl c hc
  · intro ctm ga source hmk hfl hend hne
    rw [hout ctm ga source hmk hfl]
    have hsne : ¬ source.isEmpty = true := by
      cases hx : source with
      | nil => exact absurd hx hne
      | cons a b => simp
    have hsplit : splitLines source = slGo source := by
      unfold splitLines
      rw [if_neg hsne]
    rw [hsplit]
    have h1 := pyJoin_length '\n' (slGo source) (slGo_ne_nil source)
    have h2 := slGo_ends_break_length source hend
    omega
  · intro ctm ga source hmk hfl h
    rw [hout ctm ga source hmk hfl] at h
    apply pyJoin_getLast_newline (splitLines source) ?_ h
    intro l hl hmem
    have := slGo_no_break source l (by
      unfold splitLines at hl
      split at hl
      · simp at hl
      · exact hl) '\n' hmem
    exact absurd this (by decide)

/-- C10 witness: part (2) applied at the marker-free input `"a\n"`: the
output is strictly shorter than the input, so the trailing newline is lost
and the input is not returned byte-identical. -/
theorem split_join_newline_handling_witness :
    (∀ l ∈ splitLines "a\n".toList, ¬ isMarkerLine l)
    ∧ (file_level_enabled (splitLines "a\n".toList) = false)
    ∧ (endsBreak "a\n".toList = true)
    ∧ ("a\n".toList ≠ [])
    ∧ (convert_typing_to_cython [] false "a\n".toList false).1.length
        < "a\n".toList.length :=
  ⟨by
    intro l hl
    unfold isMarkerLine
    fin_cases hl
    decide,
   by decide, by decide, by decide,
   split_join_newline_handling.2.1 [] false "a\n".toList
     (by
      intro l hl
      unfold isMarkerLine
      fin_cases hl
      decide)
     (by decide) (by decide) (by decide)⟩
